import Mathlib

/-!
# Order export: the flattening engine of `src/index.js`

A shallow embedding of `fieldMappings` and `flattenOrders` from `src/index.js`
over a small model of the JavaScript values that `JSON.parse` produces,
followed by theorems about the rows the function builds.
-/

namespace FirstAlert

/-! ## JavaScript values -/

/-- A JavaScript number, a double. `finite negative digits n` is the number
`0.d₁d₂…dₖ × 10ⁿ`, negated when `negative`, where `d₁…dₖ` are the digits of
the shortest decimal numeral that reads back as the same double, without
leading or trailing zeros; no digits at all is zero. So `5001` has the
digits 5, 0, 0, 1 and `n = 4`, `12.5` the digits 1, 2, 5 and `n = 2`, and
`1e21` the digit 1 and `n = 22`. -/
inductive JsNumber where
  | finite (negative : Bool) (digits : List Nat) (exponent : Int) : JsNumber
  | infinite (negative : Bool) : JsNumber
  | nan : JsNumber

/-- A number other than `0`, `-0` and `NaN`. -/
def JsNumber.nonzero : JsNumber → Bool
  | .finite _ digits _ => digits.any fun d => d != 0
  | .infinite _ => true
  | .nan => false

/-- The digits of a list of decimal digits, trailing zeros dropped. -/
def dropTrailingZeros (digits : List Nat) : List Nat :=
  (digits.reverse.dropWhile fun d => d == 0).reverse

/-- The number of a natural number. -/
def JsNumber.ofNat (n : Nat) : JsNumber :=
  if n = 0 then .finite false [] 0
  else
    let numeral := (Nat.toDigits 10 n).map fun c => c.toNat - 48
    .finite false (dropTrailingZeros numeral) numeral.length

/-- The character of a decimal digit. -/
def digitChar (d : Nat) : Char :=
  Char.ofNat (48 + d % 10)

/-- The text of a positive finite number, by the rules of `Number::toString`
on its digits `d₁…dₖ` and exponent `n`: an integer below `10²¹` is its digits
and `n - k` zeros; a number with `0 < n ≤ 21` has the point after `n` digits;
one with `-6 < n ≤ 0` is `0.`, `-n` zeros and the digits; any other is in
exponent form, one digit before the point and the exponent `n - 1` with its
sign. -/
def unsignedText (digits : List Nat) (n : Int) : List Char :=
  let k : Int := digits.length
  if k ≤ n ∧ n ≤ 21 then
    digits.map digitChar ++ List.replicate (n - k).toNat '0'
  else if 0 < n ∧ n ≤ 21 then
    (digits.take n.toNat).map digitChar ++ '.' :: (digits.drop n.toNat).map digitChar
  else if -6 < n ∧ n ≤ 0 then
    '0' :: '.' :: (List.replicate (-n).toNat '0' ++ digits.map digitChar)
  else
    let power := (if n - 1 < 0 then '-' else '+') :: Nat.toDigits 10 (n - 1).natAbs
    match digits with
    | [] => []
    | [d] => digitChar d :: 'e' :: power
    | d :: rest => digitChar d :: '.' :: (rest.map digitChar ++ 'e' :: power)

/-- The conversion `String(x)` of a number. -/
def numberText : JsNumber → String
  | .nan => "NaN"
  | .infinite negative => if negative then "-Infinity" else "Infinity"
  | .finite negative digits n =>
      if digits.any (fun d => d != 0) then
        String.mk ((if negative then ['-'] else []) ++ unsignedText digits n)
      else "0"

/-- The values the program handles: what `JSON.parse` yields (null, booleans,
numbers, strings, arrays, objects) and `undefined`, the result of reading a
property that is not there. An object is its own properties in insertion
order, its keys distinct. -/
inductive JsVal where
  | undefined : JsVal
  | null : JsVal
  | bool (b : Bool) : JsVal
  | num (x : JsNumber) : JsVal
  | str (s : String) : JsVal
  | arr (xs : List JsVal) : JsVal
  | obj (props : List (String × JsVal)) : JsVal

/-- The one kind of exception the flattening code can raise. -/
inductive JsError where
  | typeError : JsError
  deriving DecidableEq, Repr

/-- A row is a plain object: column name to cell, in insertion order. -/
abbrev Row := List (String × JsVal)

/-- JavaScript truthiness: `undefined`, `null`, `false`, `0`, `NaN` and `""`
are falsy, every other value (arrays and objects included) is truthy. -/
def truthy : JsVal → Bool
  | .undefined => false
  | .null => false
  | .bool b => b
  | .num x => x.nonzero
  | .str s => s != ""
  | .arr _ => true
  | .obj _ => true

/-- The expression `v || ""`. -/
def orEmpty (v : JsVal) : JsVal :=
  if truthy v then v else .str ""

/-- Own-property lookup in an object's property list. -/
def objGet : List (String × JsVal) → String → JsVal
  | [], _ => .undefined
  | (k, v) :: rest, key => if k = key then v else objGet rest key

/-- The assignment `row[key] = v`: overwrite in place when the key exists,
append otherwise. -/
def objSet : List (String × JsVal) → String → JsVal → List (String × JsVal)
  | [], key, v => [(key, v)]
  | (k, w) :: rest, key, v =>
      if k = key then (k, v) :: rest else (k, w) :: objSet rest key v

/-- The value of a run of decimal digits, `none` when some character is not
a digit. -/
def digitsValue : List Char → Nat → Option Nat
  | [], acc => some acc
  | c :: cs, acc =>
      if 48 ≤ c.toNat ∧ c.toNat ≤ 57 then digitsValue cs (10 * acc + (c.toNat - 48))
      else none

/-- A property key that is a canonical array index: the decimal numeral of a
natural number, without sign or leading zeros. -/
def arrayIndex (key : String) : Option Nat :=
  match key.data with
  | [] => none
  | [c] => digitsValue [c] 0
  | c :: d :: rest => if c = '0' then none else digitsValue (c :: d :: rest) 0

/-- The UTF-16 code units of a text: a character of the basic plane is one
unit, any other character is a pair of surrogates (`none`, twice). -/
def utf16Units : List Char → List (Option Char)
  | [] => []
  | c :: cs => if c.toNat < 65536 then some c :: utf16Units cs
               else none :: none :: utf16Units cs

/-- The read `v[key]` on a value that is neither `null` nor `undefined`.
Objects give their own property; arrays and strings answer to an index and to
`length`; numbers and booleans have no own properties. Inherited members
(methods of the prototypes) are not modelled: no segment of a rule in
`fieldMappings` names one. A lone surrogate read out of a string is written
U+FFFD. -/
def getProp (v : JsVal) (key : String) : JsVal :=
  match v with
  | .obj props => objGet props key
  | .arr xs =>
      match arrayIndex key with
      | some i => (xs.get? i).getD .undefined
      | none => if key = "length" then .num (.ofNat xs.length) else .undefined
  | .str s =>
      match arrayIndex key with
      | some i =>
          match (utf16Units s.data).get? i with
          | some (some c) => .str (String.singleton c)
          | some none => .str (String.singleton (Char.ofNat 65533))
          | none => .undefined
      | none =>
          if key = "length" then .num (.ofNat (utf16Units s.data).length) else .undefined
  | _ => .undefined

/-- The optional read `v?.[key]`: `undefined` on `null` and `undefined`. -/
def optGet (v : JsVal) (key : String) : JsVal :=
  match v with
  | .undefined => .undefined
  | .null => .undefined
  | w => getProp w key

/-- The plain read `v.key`: a `TypeError` on `null` and `undefined`. -/
def member (v : JsVal) (key : String) : Except JsError JsVal :=
  match v with
  | .undefined => .error .typeError
  | .null => .error .typeError
  | w => .ok (getProp w key)

/-! ## Strings -/

/-- Split a text at every occurrence of a one-character separator, the way
`String.prototype.split` does: the result is never empty. -/
def splitChars (sep : Char) : List Char → List (List Char)
  | [] => [[]]
  | c :: cs =>
      match splitChars sep cs with
      | [] => [[]]
      | piece :: pieces =>
          if c = sep then [] :: piece :: pieces else (c :: piece) :: pieces

/-- The call `s.split(sep)` for a one-character `sep`. -/
def jsSplit (s : String) (sep : Char) : List String :=
  (splitChars sep s.data).map String.mk

/-- The call `s.includes(" ")` and the like, for one character. -/
def jsIncludes (s : String) (c : Char) : Bool :=
  s.data.contains c

/-- The call `s.startsWith(p)`. -/
def jsStartsWith (s p : String) : Bool :=
  p.data.isPrefixOf s.data

/-- Replace the first occurrence of `pat` in a text by `rep`. -/
def replaceFirstChars (pat rep : List Char) : List Char → List Char
  | [] => if pat.isEmpty then rep else []
  | c :: cs =>
      if pat.isPrefixOf (c :: cs) then rep ++ (c :: cs).drop pat.length
      else c :: replaceFirstChars pat rep cs

/-- The call `s.replace(pat, rep)` with a string pattern: only the first
occurrence is replaced. -/
def jsReplace (s pat rep : String) : String :=
  String.mk (replaceFirstChars pat.data rep.data s.data)

/-- Join texts with a separator between consecutive ones. -/
def joinWith (sep : String) : List String → String
  | [] => ""
  | [s] => s
  | s :: t :: rest => s ++ sep ++ joinWith sep (t :: rest)

mutual
/-- The conversion `String(v)`: an array is its elements joined by commas
(`null` and `undefined` elements as nothing), an object is
`[object Object]`. -/
def toJsString : JsVal → String
  | .undefined => "undefined"
  | .null => "null"
  | .bool true => "true"
  | .bool false => "false"
  | .num x => numberText x
  | .str s => s
  | .arr xs => joinElems xs
  | .obj _ => "[object Object]"
/-- The elements of an array, converted and joined by commas. -/
def joinElems : List JsVal → String
  | [] => ""
  | [x] => elemString x
  | x :: y :: rest => elemString x ++ "," ++ joinElems (y :: rest)
/-- One element inside `Array.prototype.join`. -/
def elemString : JsVal → String
  | .undefined => ""
  | .null => ""
  | .bool true => "true"
  | .bool false => "false"
  | .num x => numberText x
  | .str s => s
  | .arr xs => joinElems xs
  | .obj _ => "[object Object]"
end

/-! ## The mapping table -/

/-- The static table `fieldMappings`: output column name to extraction rule,
in the order the object literal lists them. -/
def fieldMappings : List (String × String) :=
  [ ("Name", "name"),
    ("Email", "email"),
    ("Financial Status", "financial_status"),
    ("Paid at", ""),
    ("Fulfillment Status", "fulfillment_status"),
    ("Fulfilled at", "fulfillments.created_at"),
    ("Accepts Marketing", "buyer_accepts_marketing"),
    ("Currency", "currency"),
    ("Subtotal", "subtotal_price"),
    ("Shipping", "total_shipping_price_set.shop_money.amount"),
    ("Taxes", "total_tax"),
    ("Total", "total_price"),
    ("Discount Code", "discount_codes"),
    ("Discount Amount", "current_total_discounts"),
    ("Shipping Method", "shipping_lines.title"),
    ("Created at", "created_at"),
    ("Lineitem quantity", "line_items.quantity"),
    ("Lineitem name", "line_items.name"),
    ("Lineitem price", "line_items.price"),
    ("Lineitem compare at price", ""),
    ("Lineitem sku", "line_items.sku"),
    ("Lineitem requires shipping", "line_items.requires_shipping"),
    ("Lineitem taxable", "line_items.taxable"),
    ("Lineitem fulfillment status", "line_items.fulfillment_status"),
    ("Billing Name", "billing_address.name"),
    ("Billing Street", "billing_address.address1 billing_address.address2"),
    ("Billing Address1", "billing_address.address1"),
    ("Billing Address2", "billing_address.address2"),
    ("Billing Company", "billing_address.company"),
    ("Billing City", "billing_address.city"),
    ("Billing Zip", "billing_address.zip"),
    ("Billing Province", "billing_address.province_code"),
    ("Billing Country", "billing_address.country"),
    ("Billing Phone", "billing_address.phone"),
    ("Shipping Name", "shipping_address.name"),
    ("Shipping Street", "shipping_address.address1 shipping_address.address2"),
    ("Shipping Address1", "shipping_address.address1"),
    ("Shipping Address2", "shipping_address.address2"),
    ("Shipping Company", "shipping_address.company"),
    ("Shipping City", "shipping_address.city"),
    ("Shipping Zip", "shipping_address.zip"),
    ("Shipping Province", "shipping_address.province_code"),
    ("Shipping Country", "shipping_address.country"),
    ("Shipping Phone", "shipping_address.phone"),
    ("Note Attributes", "note_attributes"),
    ("Cancelled at", "cancelled_at"),
    ("Refunded Amount", "refunds.0.transactions.0.amount"),
    ("Vendor", "line_items.vendor"),
    ("Order ID", "id"),
    ("Lineitem discount", "line_items.total_discount"),
    ("Billing Province Name", "billing_address.province_code"),
    ("Shipping Province Name", "shipping_address.province_code") ]

/-! ## flattenOrders -/

/-- The traversal `keys.reduce((val, key) => val?.[key], root)`. -/
def reducePath (keys : List String) (root : JsVal) : JsVal :=
  keys.foldl optGet root

/-- One piece of an array destructuring `[a, b, c] = parts`: the element at
the position, `undefined` past the end. -/
def destructure (parts : List String) (i : Nat) : JsVal :=
  match parts.get? i with
  | some s => .str s
  | none => .undefined

/-- The body of the `Created at` branch (lines 130-134): split the raw
timestamp at `T`, the date at `-`, the time at `:`, and rebuild
day-month-year hour:minute with a template literal. Calling `split` on
anything but a string is a `TypeError`. -/
def createdAtValue (order : JsVal) : Except JsError JsVal := do
  let raw ← member order "created_at"
  match raw with
  | .str rawText =>
      let parts := jsSplit rawText 'T'
      match destructure parts 0, destructure parts 1 with
      | .str datePart, .str timePart =>
          let dateFields := jsSplit datePart '-'
          let timeFields := jsSplit timePart ':'
          let year := destructure dateFields 0
          let month := destructure dateFields 1
          let day := destructure dateFields 2
          let hour := destructure timeFields 0
          let minute := destructure timeFields 1
          pure (.str (toJsString day ++ "-" ++ toJsString month ++ "-" ++ toJsString year
            ++ " " ++ toJsString hour ++ ":" ++ toJsString minute))
      | _, _ => throw .typeError
  | _ => throw .typeError

/-- The value computed for one column (lines 125-151), for a rule that is
not the empty string: the four columns singled out by name first, then the
rules with a space, the rules that start with `line_items.`, and the plain
paths. -/
def cellValue (order lineItem : JsVal) (csvField shopifyPath : String) :
    Except JsError JsVal :=
  if csvField = "Accepts Marketing" then do
    let flag ← member order "buyer_accepts_marketing"
    pure (.str (if truthy flag then "TRUE" else "FALSE"))
  else if csvField = "Created at" then
    createdAtValue order
  else if csvField = "Billing Country" then do
    let address ← member order "billing_address"
    pure (orEmpty (optGet address "country_code"))
  else if csvField = "Shipping Country" then do
    let address ← member order "shipping_address"
    pure (orEmpty (optGet address "country_code"))
  else if jsIncludes shopifyPath ' ' then
    let parts := jsSplit shopifyPath ' '
    pure (.str (joinWith " " (parts.map fun path =>
      let keys := jsSplit path '.'
      elemString (orEmpty (reducePath keys
        (if jsStartsWith shopifyPath "line_items." then lineItem else order))))))
  else if jsStartsWith shopifyPath "line_items." then
    let keys := jsSplit (jsReplace shopifyPath "line_items." "") '.'
    pure (orEmpty (reducePath keys lineItem))
  else
    let keys := jsSplit shopifyPath '.'
    pure (orEmpty (reducePath keys order))

/-- One turn of the loop over `Object.entries(fieldMappings)` (lines
119-154): an empty rule writes the empty string, any other rule writes the
computed value. -/
def setColumn (order lineItem : JsVal) (row : Row) (entry : String × String) :
    Except JsError Row :=
  if entry.2 = "" then pure (objSet row entry.1 (.str ""))
  else do
    let value ← cellValue order lineItem entry.1 entry.2
    pure (objSet row entry.1 value)

/-- The row built for one order and one of its line items (lines 117-154). -/
def buildRow (order lineItem : JsVal) : Except JsError Row :=
  fieldMappings.foldlM (setColumn order lineItem) []

/-- The values a `for ... of` loop visits: the elements of an array, the
characters of a string; anything else is not iterable. -/
def iterate : JsVal → Except JsError (List JsVal)
  | .arr xs => pure xs
  | .str s => pure (s.data.map fun c => .str (String.singleton c))
  | _ => throw .typeError

/-- The inner loop (lines 116-157): one row pushed per line item. -/
def pushRows (order : JsVal) (rows : List Row) : Except JsError (List Row) := do
  let lineItems ← member order "line_items"
  let items ← iterate lineItems
  items.foldlM (fun acc lineItem => do
    let row ← buildRow order lineItem
    pure (acc ++ [row])) rows

/-- The function `flattenOrders` (lines 112-161). An exception anywhere
leaves the function without a result. -/
def flattenOrders (orders : List JsVal) : Except JsError (List Row) :=
  orders.foldlM (fun rows order => pushRows order rows) []

/-- The cell of a row under a column name. -/
def cell (row : Row) (column : String) : JsVal :=
  objGet row column

/-! ## The cursor of fetchShopifyOrders -/

/-- The call `s.includes(sub)` on the characters of the two texts. -/
def includesChars (sub : List Char) : List Char → Bool
  | [] => sub.isEmpty
  | c :: cs => sub.isPrefixOf (c :: cs) || includesChars sub cs

/-- The call `s.includes(sub)`. -/
def jsIncludesText (s sub : String) : Bool :=
  includesChars sub.data s.data

/-- The first capture of `/page_info=([^&>]+)/` in a text: at the leftmost
place where `page_info=` is followed by at least one character other than
`&` and `>`, the longest run of such characters. -/
def matchPageInfo : List Char → Option (List Char)
  | [] => none
  | c :: cs =>
      if "page_info=".data.isPrefixOf (c :: cs) then
        match ((c :: cs).drop 10).takeWhile (fun ch => ch != '&' && ch != '>') with
        | [] => matchPageInfo cs
        | t :: ts => some (t :: ts)
      else matchPageInfo cs

/-- The value given to `pageInfo` after a page (lines 94-100), from the
`link` header of the response, `none` when the response has no such
header: the first `page_info` token of the header when the header contains
`rel="next"`, and `null` (here `none`) otherwise. -/
def nextPageInfo (linkHeader : Option String) : Option String :=
  match linkHeader with
  | none => none
  | some header =>
      if header ≠ "" ∧ jsIncludesText header "rel=\"next\"" = true then
        (matchPageInfo header.data).map String.mk
      else none

/-- The address of the next request (line 83). -/
def requestUrl (baseUrl : String) (pageInfo : Option String) : String :=
  match pageInfo with
  | some token => if token ≠ "" then baseUrl ++ "&page_info=" ++ token else baseUrl
  | none => baseUrl

/-! ## The names of uploadToSFTP -/

/-- The call `s.slice(0, n)`, for text of the basic plane. -/
def sliceTo (s : String) (n : Nat) : String :=
  String.mk (s.data.take n)

/-- The removal of every occurrence of one character from a text, as the
global replacement of the hyphen by nothing in line 174 does. -/
def removeChar (s : String) (c : Char) : String :=
  String.mk (s.data.filter fun ch => ch != c)

/-- The replacement text of `String.prototype.replace` with its patterns
expanded, for a regular expression without groups: `$$` is a dollar sign,
`$&` the matched text, a dollar sign with a grave accent the text before the
match, with an apostrophe the text after it; any other dollar sign stands
for itself. -/
def expandReplacement (matched before after : List Char) : List Char → List Char
  | [] => []
  | [c] => [c]
  | c :: d :: rest =>
      if c = '$' then
        if d = '$' then '$' :: expandReplacement matched before after rest
        else if d = '&' then matched ++ expandReplacement matched before after rest
        else if d = Char.ofNat 96 then before ++ expandReplacement matched before after rest
        else if d = Char.ofNat 39 then after ++ expandReplacement matched before after rest
        else c :: expandReplacement matched before after (d :: rest)
      else c :: expandReplacement matched before after (d :: rest)

/-- The call `path.replace(/orders\.csv$/, replacement)`: the text
`orders.csv` at the very end of the path, if it is there, gives way to the
replacement. -/
def replaceOrdersCsv (path replacement : String) : String :=
  if "orders.csv".data.isSuffixOf path.data then
    let before := path.data.take (path.data.length - 10)
    String.mk (before ++ expandReplacement "orders.csv".data before [] replacement.data)
  else path

/-- The two names computed by `uploadToSFTP` (lines 174-176), from the
reading of the clock as `toISOString` writes it and from the environment
variable `SFTP_REMOTE_PATH`, `none` when it is not set: the local file name
and the remote path. -/
def uploadNames (isoNow : String) (remoteBase : Option String) :
    Except JsError (String × String) :=
  let today := removeChar (sliceTo isoNow 10) '-'
  let localFile := "HCM_001_SHOPIFY_ECOMM_" ++ today ++ ".csv"
  match remoteBase with
  | none => .error .typeError
  | some base => .ok (localFile, replaceOrdersCsv base localFile)

/-- A `link` header with a previous link before the next link. -/
def headerWithPrevious : String :=
  "<https://shop.example/admin/api/2024-01/orders.json?limit=250&page_info=PREV1>; rel=\"previous\", "
    ++ "<https://shop.example/admin/api/2024-01/orders.json?limit=250&page_info=NEXT2>; rel=\"next\""

/-- A `link` header with a next link only. -/
def headerNextOnly : String :=
  "<https://shop.example/admin/api/2024-01/orders.json?limit=250&page_info=NEXT2>; rel=\"next\""

/-- A `link` header with a previous link only. -/
def headerPreviousOnly : String :=
  "<https://shop.example/admin/api/2024-01/orders.json?limit=250&page_info=PREV1>; rel=\"previous\""

/-! ## Sample data -/

/-- A billing address with both a country name and a country code. -/
def sampleAddress : JsVal :=
  .obj [("name", .str "Ada Lovelace"), ("address1", .str "12 Elm St"), ("address2", .str ""),
        ("country", .str "Canada"), ("country_code", .str "CA")]

/-- An order with two line items, in the shape the orders endpoint sends. -/
def sampleOrder : JsVal :=
  .obj [("id", .num (.ofNat 5001)), ("name", .str "#1001"),
        ("buyer_accepts_marketing", .bool true),
        ("created_at", .str "2025-03-27T11:51:11-04:00"),
        ("billing_address", sampleAddress),
        ("line_items", .arr [
          .obj [("name", .str "Alarm"), ("sku", .str "FA-1"), ("quantity", .num (.ofNat 2)),
                ("taxable", .bool false), ("vendor", .str "First Alert")],
          .obj [("name", .str "Battery"), ("sku", .str "BT-9"), ("quantity", .num (.ofNat 1)),
                ("taxable", .bool true), ("vendor", .str "Acme")]])]

/-- An order with one line item and no `created_at`. -/
def orderWithoutDate : JsVal :=
  .obj [("id", .num (.ofNat 5002)), ("line_items", .arr [.obj [("name", .str "Alarm")]])]

/-- An order whose `line_items` is the empty array. -/
def orderWithoutItems : JsVal :=
  .obj [("id", .num (.ofNat 5003)), ("line_items", .arr [])]

/-- The rows the function returns for the sample order. -/
def sampleRows : List Row :=
  match flattenOrders [sampleOrder] with
  | .ok rows => rows
  | .error _ => []

/-- The elements of an array value; nothing for any other value. -/
def arrayItems : JsVal → List JsVal
  | .arr xs => xs
  | _ => []

/-- An order with a valid `created_at` and one line item, but no
`billing_address` and no `shipping_address`. -/
def orderWithoutBilling : JsVal :=
  .obj [("id", .num (.ofNat 5004)), ("name", .str "#1004"),
        ("created_at", .str "2025-03-27T11:51:11-04:00"),
        ("line_items", .arr [.obj [("name", .str "Alarm"), ("sku", .str "FA-1")]])]

/-- The row built for the line item of `orderWithoutBilling`. -/
def rowWithoutBilling : Row :=
  match buildRow orderWithoutBilling (.obj [("name", .str "Alarm"), ("sku", .str "FA-1")]) with
  | .ok row => row
  | .error _ => []

/-- The first line item of the sample order. -/
def sampleItem : JsVal :=
  .obj [("name", .str "Alarm"), ("sku", .str "FA-1"), ("quantity", .num (.ofNat 2)),
        ("taxable", .bool false), ("vendor", .str "First Alert")]

/-- The row built for the sample order and its first line item. -/
def sampleRow : Row :=
  match buildRow sampleOrder sampleItem with
  | .ok row => row
  | .error _ => []

/-- The second line item of the sample order. -/
def sampleItem2 : JsVal :=
  .obj [("name", .str "Battery"), ("sku", .str "BT-9"), ("quantity", .num (.ofNat 1)),
        ("taxable", .bool true), ("vendor", .str "Acme")]

/-- The row built for the sample order and its second line item. -/
def sampleRow2 : Row :=
  match buildRow sampleOrder sampleItem2 with
  | .ok row => row
  | .error _ => []

/-- The columns whose rule starts with `line_items.`, in table order. -/
def lineItemColumns : List String :=
  ["Lineitem quantity", "Lineitem name", "Lineitem price", "Lineitem sku",
   "Lineitem requires shipping", "Lineitem taxable", "Lineitem fulfillment status",
   "Vendor", "Lineitem discount"]

/-- An order whose billing address has a country name and the number `0` as
its country code. -/
def orderWithZeroCountryCode : JsVal :=
  .obj [("id", .num (.ofNat 5005)),
        ("created_at", .str "2025-03-27T11:51:11-04:00"),
        ("billing_address", .obj [("country", .str "Canada"), ("country_code", .num (.ofNat 0))]),
        ("line_items", .arr [.obj [("name", .str "Alarm")]])]

/-- The row built for the line item of `orderWithZeroCountryCode`. -/
def rowWithZeroCountryCode : Row :=
  match buildRow orderWithZeroCountryCode (.obj [("name", .str "Alarm")]) with
  | .ok row => row
  | .error _ => []

/-- The sample order with another country name in its billing address. -/
def sampleOrderRenamedCountry : JsVal :=
  .obj [("id", .num (.ofNat 5001)), ("name", .str "#1001"),
        ("buyer_accepts_marketing", .bool true),
        ("created_at", .str "2025-03-27T11:51:11-04:00"),
        ("billing_address", .obj [("name", .str "Ada Lovelace"), ("address1", .str "12 Elm St"),
          ("address2", .str ""), ("country", .str "Kanada"), ("country_code", .str "CA")]),
        ("line_items", .arr [sampleItem, sampleItem2])]

/-- The row built for `sampleOrderRenamedCountry` and the first line item. -/
def sampleRowRenamedCountry : Row :=
  match buildRow sampleOrderRenamedCountry sampleItem with
  | .ok row => row
  | .error _ => []

/-- The values `null` and `undefined`: a field that is absent or null. -/
def nullish : JsVal → Bool
  | .undefined => true
  | .null => true
  | _ => false

/-- The four columns the code singles out by name. -/
def isSpecial (csvField : String) : Bool :=
  decide (csvField = "Accepts Marketing") || decide (csvField = "Created at")
    || decide (csvField = "Billing Country") || decide (csvField = "Shipping Country")

/-- The path segments a one-path rule traverses: those of the rule, after
the first `line_items.` is removed from a rule that starts with it. -/
def ruleKeys (shopifyPath : String) : List String :=
  if jsStartsWith shopifyPath "line_items." then
    jsSplit (jsReplace shopifyPath "line_items." "") '.'
  else jsSplit shopifyPath '.'

/-- The value a rule is traversed from: the line item for a rule that starts
with `line_items.`, the order for any other. -/
def ruleRoot (order lineItem : JsVal) (shopifyPath : String) : JsVal :=
  if jsStartsWith shopifyPath "line_items." then lineItem else order

/-- The text `r(x)` of a field in a joined column: the text of `x` when `x`
is truthy, nothing otherwise. -/
def valueText (x : JsVal) : String :=
  if truthy x then toJsString x else ""

/-- An order with a refund, a fulfillment, a shipping line, a discount code
and a subtotal of zero. -/
def orderWithRefund : JsVal :=
  .obj [("id", .num (.ofNat 5006)), ("name", .str "#1006"),
        ("created_at", .str "2025-03-27T11:51:11-04:00"),
        ("subtotal_price", .num (.ofNat 0)),
        ("discount_codes", .arr [.obj [("code", .str "SAVE10")]]),
        ("fulfillments", .arr [.obj [("created_at", .str "2025-03-28T09:00:00-04:00")]]),
        ("shipping_lines", .arr [.obj [("title", .str "Standard")]]),
        ("refunds", .arr [.obj [("transactions", .arr [.obj [("amount", .str "12.50")]])]]),
        ("line_items", .arr [sampleItem])]

/-- The row built for `orderWithRefund` and its line item. -/
def rowWithRefund : Row :=
  match buildRow orderWithRefund sampleItem with
  | .ok row => row
  | .error _ => []

/-- An order that has no `line_items` field. -/
def orderWithoutItemsField : JsVal :=
  .obj [("id", .num (.ofNat 5007)), ("created_at", .str "2025-03-27T11:51:11-04:00")]

/-- The values that are strings. -/
def isString : JsVal → Bool
  | .str _ => true
  | _ => false

/-- An order with one line item and a given `created_at` text. -/
def orderCreatedAt (raw : String) : JsVal :=
  .obj [("id", .num (.ofNat 5008)), ("created_at", .str raw), ("line_items", .arr [sampleItem])]

/-- The row built for `orderCreatedAt raw` and its line item. -/
def rowCreatedAt (raw : String) : Row :=
  match buildRow (orderCreatedAt raw) sampleItem with
  | .ok row => row
  | .error _ => []

/-- The value of a sub-path as the specification reads a rule with several
paths: a sub-path that starts with `line_items.` is traversed, that prefix
stripped, from the line item, and any other sub-path from the order. -/
def subPathValue (order lineItem : JsVal) (path : String) : JsVal :=
  reducePath (ruleKeys path) (ruleRoot order lineItem path)

/-- An order whose billing address has the number `1e21` as its first line
and the number `12.5` as its second. -/
def orderWithNumericAddress : JsVal :=
  .obj [("id", .num (.ofNat 5009)),
        ("created_at", .str "2025-03-27T11:51:11-04:00"),
        ("billing_address", .obj [("address1", .num (.finite false [1] 22)),
          ("address2", .num (.finite false [1, 2, 5] 2))]),
        ("line_items", .arr [sampleItem])]

/-- The row built for `orderWithNumericAddress` and its line item. -/
def rowWithNumericAddress : Row :=
  match buildRow orderWithNumericAddress sampleItem with
  | .ok row => row
  | .error _ => []

/-! ## How a row is built -/

/-- What one turn of the column loop writes: the empty string for an empty
rule, the computed value otherwise. -/
def columnValue (order lineItem : JsVal) (entry : String × String) : Except JsError JsVal :=
  if entry.2 = "" then pure (.str "") else cellValue order lineItem entry.1 entry.2

/-- The line items the inner loop visits for an order: the value of
`order.line_items`, iterated. -/
def lineItemsOf (order : JsVal) : Except JsError (List JsVal) := do
  let lineItems ← member order "line_items"
  iterate lineItems

/-- The rows of one order: its line items, each with the row built for it. -/
def OrderRows (order : JsVal) (rows : List Row) : Prop :=
  ∃ items, lineItemsOf order = .ok items ∧
    List.Forall₂ (fun lineItem row => buildRow order lineItem = .ok row) items rows

theorem setColumn_eq (order lineItem : JsVal) (row : Row) (entry : String × String) :
    setColumn order lineItem row entry
      = (columnValue order lineItem entry).map (objSet row entry.1) := by
  unfold setColumn columnValue
  split
  · rfl
  · cases cellValue order lineItem entry.1 entry.2 <;> rfl

theorem foldlM_setColumn (order lineItem : JsVal) :
    ∀ (table : List (String × String)) (acc row : Row),
      table.foldlM (setColumn order lineItem) acc = .ok row ↔
        ∃ vals, List.Forall₂ (fun e v => columnValue order lineItem e = .ok v) table vals ∧
          row = List.foldl (fun r kv => objSet r kv.1 kv.2) acc ((table.map Prod.fst).zip vals) := by
  intro table
  induction table with
  | nil =>
      intro acc row
      constructor
      · intro h
        refine ⟨[], List.Forall₂.nil, ?_⟩
        simpa [pure, Except.pure] using h.symm
      · rintro ⟨vals, hv, hrow⟩
        cases hv
        simp [pure, Except.pure, hrow]
  | cons e rest ih =>
      intro acc row
      rw [List.foldlM_cons, setColumn_eq]
      constructor
      · intro h
        cases hcv : columnValue order lineItem e with
        | error err => rw [hcv] at h; cases h
        | ok v =>
            rw [hcv] at h
            obtain ⟨vals, hvals, hrow⟩ := (ih (objSet acc e.1 v) row).1 h
            exact ⟨v :: vals, List.Forall₂.cons hcv hvals, by simpa using hrow⟩
      · rintro ⟨vals, hv, hrow⟩
        cases hv with
        | cons hhead htail =>
            rw [hhead]
            exact (ih _ row).2 ⟨_, htail, by simpa using hrow⟩

theorem objSet_fresh : ∀ (row : Row) (k : String) (v : JsVal),
    k ∉ row.map Prod.fst → objSet row k v = row ++ [(k, v)]
  | [], _, _, _ => rfl
  | (k0, w) :: rest, k, v, h => by
      have hne : k0 ≠ k := fun heq => h (by simp [heq])
      have hrest : k ∉ rest.map Prod.fst := fun hmem => h (by simp [hmem])
      simp [objSet, hne, objSet_fresh rest k v hrest]

theorem foldl_objSet_fresh : ∀ (keys : List String) (vals : List JsVal) (acc : Row),
    keys.Nodup → (∀ k ∈ keys, k ∉ acc.map Prod.fst) → keys.length = vals.length →
      List.foldl (fun r kv => objSet r kv.1 kv.2) acc (keys.zip vals) = acc ++ keys.zip vals
  | [], _, acc, _, _, _ => by simp
  | k :: ks, [], _, _, _, hlen => by simp at hlen
  | k :: ks, v :: vs, acc, hnd, hfresh, hlen => by
      have hk : k ∉ acc.map Prod.fst := hfresh k (by simp)
      rw [List.nodup_cons] at hnd
      simp only [List.zip_cons_cons, List.foldl_cons]
      rw [objSet_fresh acc k v hk, foldl_objSet_fresh ks vs _ hnd.2 ?_ (by simpa using hlen)]
      · simp
      · intro k2 hk2
        simp only [List.map_append, List.map_cons, List.map_nil, List.mem_append,
          List.mem_singleton, not_or]
        exact ⟨hfresh k2 (by simp [hk2]), fun heq => hnd.1 (heq ▸ hk2)⟩

theorem fieldMappings_keys_nodup : (fieldMappings.map Prod.fst).Nodup := by decide

/-- No column name is an array index, so an object keyed by column names
lists them in insertion order. -/
theorem fieldMappings_keys_not_indices :
    ∀ e ∈ fieldMappings, arrayIndex e.1 = none := by decide

/-- A row is built exactly when every column's value is computed, and it
then lists the table's column names with those values, in table order. -/
theorem buildRow_ok_iff (order lineItem : JsVal) (row : Row) :
    buildRow order lineItem = .ok row ↔
      ∃ vals, List.Forall₂ (fun e v => columnValue order lineItem e = .ok v) fieldMappings vals ∧
        row = (fieldMappings.map Prod.fst).zip vals := by
  unfold buildRow
  rw [foldlM_setColumn]
  constructor
  · rintro ⟨vals, hv, hrow⟩
    refine ⟨vals, hv, ?_⟩
    rw [hrow, foldl_objSet_fresh _ _ _ fieldMappings_keys_nodup (by simp)
      (by simpa using hv.length_eq)]
    simp
  · rintro ⟨vals, hv, hrow⟩
    refine ⟨vals, hv, ?_⟩
    rw [hrow, foldl_objSet_fresh _ _ _ fieldMappings_keys_nodup (by simp)
      (by simpa using hv.length_eq)]
    simp

theorem objGet_zip : ∀ (table : List (String × String)) (vals : List JsVal)
    (P : String × String → JsVal → Prop),
    (table.map Prod.fst).Nodup → List.Forall₂ P table vals →
      ∀ e ∈ table, P e (objGet ((table.map Prod.fst).zip vals) e.1)
  | [], _, _, _, _, e, he => by simp at he
  | e0 :: rest, _, P, hnd, hv, e, he => by
      cases hv with
      | cons hhead htail =>
          rw [List.map_cons, List.nodup_cons] at hnd
          rcases List.mem_cons.1 he with heq | hmem
          · subst heq
            simpa [objGet] using hhead
          · have hne : e0.1 ≠ e.1 := fun heq =>
              hnd.1 (heq ▸ List.mem_map_of_mem Prod.fst hmem)
            have := objGet_zip rest _ P hnd.2 htail e hmem
            simpa [objGet, hne] using this

/-- The column names of a built row are the table's keys, in table order. -/
theorem buildRow_keys (order lineItem : JsVal) (row : Row)
    (h : buildRow order lineItem = .ok row) :
    row.map Prod.fst = fieldMappings.map Prod.fst := by
  obtain ⟨vals, hv, hrow⟩ := (buildRow_ok_iff order lineItem row).1 h
  rw [hrow, List.map_fst_zip]
  simpa using Nat.le_of_eq hv.length_eq

/-- Each cell of a built row is the value computed for its column. -/
theorem buildRow_cell (order lineItem : JsVal) (row : Row)
    (h : buildRow order lineItem = .ok row) (e : String × String) (he : e ∈ fieldMappings) :
    columnValue order lineItem e = .ok (cell row e.1) := by
  obtain ⟨vals, hv, hrow⟩ := (buildRow_ok_iff order lineItem row).1 h
  rw [hrow]
  exact objGet_zip fieldMappings vals _ fieldMappings_keys_nodup hv e he

/-! ## How the rows are collected -/

theorem foldlM_push (order : JsVal) :
    ∀ (items : List JsVal) (rows out : List Row),
      items.foldlM (fun acc lineItem => do
          let row ← buildRow order lineItem
          pure (acc ++ [row])) rows = .ok out ↔
        ∃ built, List.Forall₂ (fun lineItem row => buildRow order lineItem = .ok row) items built ∧
          out = rows ++ built := by
  intro items
  induction items with
  | nil =>
      intro rows out
      constructor
      · intro h
        refine ⟨[], List.Forall₂.nil, ?_⟩
        simpa [pure, Except.pure] using h.symm
      · rintro ⟨built, hb, hout⟩
        cases hb
        simp [pure, Except.pure, hout]
  | cons item rest ih =>
      intro rows out
      rw [List.foldlM_cons]
      constructor
      · intro h
        cases hrow : buildRow order item with
        | error err => rw [hrow] at h; cases h
        | ok row =>
            rw [hrow] at h
            obtain ⟨built, hb, hout⟩ := (ih (rows ++ [row]) out).1 h
            exact ⟨row :: built, List.Forall₂.cons hrow hb, by simpa using hout⟩
      · rintro ⟨built, hb, hout⟩
        cases hb with
        | cons hhead htail =>
            rw [hhead]
            exact (ih _ out).2 ⟨_, htail, by simpa using hout⟩

theorem pushRows_ok_iff (order : JsVal) (rows out : List Row) :
    pushRows order rows = .ok out ↔ ∃ built, OrderRows order built ∧ out = rows ++ built := by
  unfold pushRows OrderRows lineItemsOf
  cases hm : member order "line_items" with
  | error err =>
      constructor
      · intro h; cases h
      · rintro ⟨built, ⟨items, hitems, _⟩, _⟩; cases hitems
  | ok lineItems =>
      cases hi : iterate lineItems with
      | error err =>
          constructor
          · intro h
            simp only [bind, Except.bind, hi] at h
            cases h
          · rintro ⟨built, ⟨items, hitems, _⟩, _⟩
            simp only [bind, Except.bind, hi] at hitems
            cases hitems
      | ok items =>
          constructor
          · intro h
            simp only [bind, Except.bind, hi] at h
            obtain ⟨built, hb, hout⟩ := (foldlM_push order items rows out).1 h
            exact ⟨built, ⟨items, by simp [bind, Except.bind, hi], hb⟩, hout⟩
          · rintro ⟨built, ⟨items2, hitems, hb⟩, hout⟩
            simp only [bind, Except.bind, hi] at hitems
            cases hitems
            simp only [bind, Except.bind, hi]
            exact (foldlM_push order items rows out).2 ⟨built, hb, hout⟩

theorem foldlM_pushRows :
    ∀ (orders : List JsVal) (rows out : List Row),
      orders.foldlM (fun acc order => pushRows order acc) rows = .ok out ↔
        ∃ groups, List.Forall₂ OrderRows orders groups ∧ out = rows ++ groups.flatten := by
  intro orders
  induction orders with
  | nil =>
      intro rows out
      constructor
      · intro h
        refine ⟨[], List.Forall₂.nil, ?_⟩
        simpa [pure, Except.pure] using h.symm
      · rintro ⟨groups, hg, hout⟩
        cases hg
        simp [pure, Except.pure, hout]
  | cons order rest ih =>
      intro rows out
      rw [List.foldlM_cons]
      constructor
      · intro h
        cases hp : pushRows order rows with
        | error err => rw [hp] at h; cases h
        | ok mid =>
            rw [hp] at h
            obtain ⟨built, hb, hmid⟩ := (pushRows_ok_iff order rows mid).1 hp
            obtain ⟨groups, hg, hout⟩ := (ih mid out).1 h
            exact ⟨built :: groups, List.Forall₂.cons hb hg, by simp [hout, hmid]⟩
      · rintro ⟨groups, hg, hout⟩
        cases hg with
        | cons hhead htail =>
            rw [(pushRows_ok_iff order rows _).2 ⟨_, hhead, rfl⟩]
            exact (ih _ out).2 ⟨_, htail, by simp [hout]⟩

/-- The function returns exactly when every order's line items can be
visited and every row built; the result is then the orders' row groups, one
after the other. -/
theorem flattenOrders_ok_iff (orders : List JsVal) (out : List Row) :
    flattenOrders orders = .ok out ↔
      ∃ groups, List.Forall₂ OrderRows orders groups ∧ out = groups.flatten := by
  unfold flattenOrders
  rw [foldlM_pushRows]
  simp

/-- Every row of a result was built for some order of the input and one of
the line items visited for it. -/
theorem flattenOrders_row_origin (orders : List JsVal) (out : List Row)
    (h : flattenOrders orders = .ok out) (row : Row) (hrow : row ∈ out) :
    ∃ order ∈ orders, ∃ items, lineItemsOf order = .ok items ∧
      ∃ lineItem ∈ items, buildRow order lineItem = .ok row := by
  obtain ⟨groups, hg, hout⟩ := (flattenOrders_ok_iff orders out).1 h
  subst hout
  obtain ⟨group, hgroup, hmem⟩ := List.mem_flatten.1 hrow
  obtain ⟨i, hi, rfl⟩ := List.mem_iff_getElem.1 hgroup
  have hlen := hg.length_eq
  have hio : i < orders.length := hlen ▸ hi
  obtain ⟨items, hitems, hb⟩ := List.forall₂_iff_get.1 hg |>.2 i hio hi
  obtain ⟨j, hj, hjeq⟩ := List.mem_iff_getElem.1 hmem
  have hji : j < items.length := hb.length_eq ▸ hj
  refine ⟨orders.get ⟨i, hio⟩, List.get_mem _ _ _, items, hitems, items.get ⟨j, hji⟩,
    List.get_mem _ _ _, ?_⟩
  have := (List.forall₂_iff_get.1 hb).2 j hji hj
  simpa [hjeq] using this

/-! ## When a row can be built -/

theorem member_defined (order : JsVal) (key0 : String) (v0 : JsVal)
    (h : member order key0 = .ok v0) (key : String) :
    member order key = .ok (getProp order key) := by
  cases order <;> first | rfl | cases h

theorem splitChars_ne_nil (sep : Char) : ∀ text : List Char, splitChars sep text ≠ []
  | [] => by simp [splitChars]
  | c :: cs => by
      unfold splitChars
      split
      · simp
      · split <;> simp

theorem splitChars_of_mem (sep : Char) :
    ∀ text : List Char, sep ∈ text → ∃ a b rest, splitChars sep text = a :: b :: rest
  | [], h => by simp at h
  | c :: cs, h => by
      by_cases hc : c = sep
      · cases hs : splitChars sep cs with
        | nil => exact absurd hs (splitChars_ne_nil sep cs)
        | cons piece pieces => exact ⟨[], piece, pieces, by simp [splitChars, hs, hc]⟩
      · have hmem : sep ∈ cs := by
          rcases List.mem_cons.1 h with heq | hmem
          · exact absurd heq.symm hc
          · exact hmem
        obtain ⟨a, b, rest, hab⟩ := splitChars_of_mem sep cs hmem
        exact ⟨c :: a, b, rest, by simp [splitChars, hab, hc]⟩

/-- The `Created at` branch returns for every string with a `T` in it. -/
theorem createdAtValue_ok (order : JsVal) (raw : String)
    (hraw : member order "created_at" = .ok (.str raw)) (hT : 'T' ∈ raw.data) :
    ∃ v, createdAtValue order = .ok v := by
  obtain ⟨a, b, rest, hab⟩ := splitChars_of_mem _ raw.data hT
  unfold createdAtValue
  simp only [hraw, bind, Except.bind, jsSplit, hab, destructure, List.map_cons, List.get?_cons_zero,
    List.get?_cons_succ]
  exact ⟨_, rfl⟩

/-- Every column other than `Created at` is computed for every order that is
neither `null` nor `undefined`, and `Created at` whenever its branch
returns. -/
theorem columnValue_ok (order lineItem : JsVal) (key0 : String) (v0 : JsVal)
    (hdef : member order key0 = .ok v0) (e : String × String)
    (hdate : e.1 = "Created at" → ∃ v, createdAtValue order = .ok v) :
    ∃ v, columnValue order lineItem e = .ok v := by
  unfold columnValue cellValue
  simp only [member_defined order key0 v0 hdef, bind, Except.bind, pure, Except.pure]
  split_ifs with h1 h2 h3 h4 h5 h6 h7
  all_goals first
    | exact ⟨_, rfl⟩
    | exact hdate (by assumption)

theorem buildRow_ok (order lineItem : JsVal) (key0 : String) (v0 : JsVal)
    (hdef : member order key0 = .ok v0) (hdate : ∃ v, createdAtValue order = .ok v) :
    ∃ row, buildRow order lineItem = .ok row := by
  have hall : ∀ table : List (String × String),
      ∃ vals, List.Forall₂ (fun e v => columnValue order lineItem e = .ok v) table vals := by
    intro table
    induction table with
    | nil => exact ⟨[], List.Forall₂.nil⟩
    | cons e rest ih =>
        obtain ⟨vals, hvals⟩ := ih
        obtain ⟨v, hv⟩ := columnValue_ok order lineItem key0 v0 hdef e (fun _ => hdate)
        exact ⟨v :: vals, List.Forall₂.cons hv hvals⟩
  obtain ⟨vals, hvals⟩ := hall fieldMappings
  exact ⟨_, (buildRow_ok_iff order lineItem _).2 ⟨vals, hvals, rfl⟩⟩

theorem forall₂_buildRow (order : JsVal) (key0 : String) (v0 : JsVal)
    (hdef : member order key0 = .ok v0) (hdate : ∃ v, createdAtValue order = .ok v) :
    ∀ items : List JsVal,
      ∃ rows, List.Forall₂ (fun lineItem row => buildRow order lineItem = .ok row) items rows
  | [] => ⟨[], List.Forall₂.nil⟩
  | item :: rest => by
      obtain ⟨rows, hrows⟩ := forall₂_buildRow order key0 v0 hdef hdate rest
      obtain ⟨row, hrow⟩ := buildRow_ok order item key0 v0 hdef hdate
      exact ⟨row :: rows, List.Forall₂.cons hrow hrows⟩

theorem forall₂_mem_right {α β : Type} (R : α → β → Prop) (xs : List α) (ys : List β)
    (h : List.Forall₂ R xs ys) : ∀ y ∈ ys, ∃ x ∈ xs, R x y := by
  induction h with
  | nil =>
      intro y hy
      simp at hy
  | cons hhead _ ih =>
      intro y hy
      rcases List.mem_cons.1 hy with heq | hmem
      · subst heq
        exact ⟨_, List.mem_cons_self _ _, hhead⟩
      · obtain ⟨x, hx, hR⟩ := ih y hmem
        exact ⟨x, List.mem_cons_of_mem _ hx, hR⟩

/-- One order whose line items are an array and whose `Created at` branch
returns: the function returns one row per line item, in line-item order. -/
theorem flattenOrders_one (order : JsVal) (items : List JsVal)
    (hitems : member order "line_items" = .ok (.arr items))
    (hdate : ∃ v, createdAtValue order = .ok v) :
    ∃ rows, flattenOrders [order] = .ok rows ∧
      List.Forall₂ (fun lineItem row => buildRow order lineItem = .ok row) items rows := by
  obtain ⟨rows, hrows⟩ := forall₂_buildRow order _ _ hitems hdate items
  refine ⟨rows, (flattenOrders_ok_iff _ _).2 ⟨[rows], List.Forall₂.cons ?_ List.Forall₂.nil, ?_⟩,
    hrows⟩
  · exact ⟨items, by simp [lineItemsOf, hitems, bind, Except.bind, iterate, pure, Except.pure],
      hrows⟩
  · simp

/-! ## Missing and null values on a path -/

theorem reducePath_append (ks1 ks2 : List String) (root : JsVal) :
    reducePath (ks1 ++ ks2) root = reducePath ks2 (reducePath ks1 root) := by
  simp [reducePath, List.foldl_append]

theorem optGet_nullish (v : JsVal) (key : String) (h : nullish v = true) :
    optGet v key = .undefined := by
  cases v <;> first | rfl | cases h

theorem reducePath_nullish : ∀ (keys : List String) (v : JsVal),
    nullish v = true → nullish (reducePath keys v) = true
  | [], _, h => h
  | k :: ks, v, h => by
      show nullish (reducePath ks (optGet v k)) = true
      rw [optGet_nullish v k h]
      exact reducePath_nullish ks .undefined rfl

theorem orEmpty_nullish (v : JsVal) (h : nullish v = true) : orEmpty v = .str "" := by
  cases v <;> first | rfl | cases h

/-- A value that is absent or null at some depth of a traversal makes the
traversal's `|| ""` the empty string. -/
theorem orEmpty_reducePath_missing (keys ks1 ks2 : List String) (root : JsVal)
    (hkeys : keys = ks1 ++ ks2) (hmissing : nullish (reducePath ks1 root) = true) :
    orEmpty (reducePath keys root) = .str "" := by
  rw [hkeys, reducePath_append]
  exact orEmpty_nullish _ (reducePath_nullish ks2 _ hmissing)

theorem optGet_eq_getProp (v : JsVal) (key : String) : optGet v key = getProp v key := by
  cases v <;> rfl

/-- The value of a column whose rule is one path: the traversal of the
rule's segments from the rule's root, or the empty string when that is
falsy. -/
theorem columnValue_single (order lineItem : JsVal) (e : String × String)
    (hrule : e.2 ≠ "") (hspecial : isSpecial e.1 = false) (hspace : jsIncludes e.2 ' ' = false) :
    columnValue order lineItem e
      = .ok (orEmpty (reducePath (ruleKeys e.2) (ruleRoot order lineItem e.2))) := by
  simp only [isSpecial, Bool.or_eq_false_iff, decide_eq_false_iff_not] at hspecial
  obtain ⟨⟨⟨h1, h2⟩, h3⟩, h4⟩ := hspecial
  unfold columnValue cellValue ruleKeys ruleRoot
  simp only [hrule, h1, h2, h3, h4, hspace, if_false, Bool.false_eq_true]
  split <;> rfl

/-- The value of the two country columns. -/
theorem columnValue_country (order lineItem : JsVal) (key0 : String) (v0 : JsVal)
    (hdef : member order key0 = .ok v0) (rule : String) (hrule : rule ≠ "") :
    columnValue order lineItem ("Billing Country", rule)
        = .ok (orEmpty (reducePath ["billing_address", "country_code"] order)) ∧
      columnValue order lineItem ("Shipping Country", rule)
        = .ok (orEmpty (reducePath ["shipping_address", "country_code"] order)) := by
  unfold columnValue cellValue
  simp only [hrule, if_false, member_defined order key0 v0 hdef, bind, Except.bind, pure,
    Except.pure, reducePath, List.foldl_cons, List.foldl_nil, optGet_eq_getProp]
  constructor <;> rfl

theorem elemString_orEmpty (v : JsVal) : elemString (orEmpty v) = valueText v := by
  unfold orEmpty valueText
  cases v with
  | undefined => rfl
  | null => rfl
  | bool b => cases b <;> rfl
  | num n =>
      by_cases hn : truthy (.num n) = true
      · simp [hn, elemString, toJsString]
      · simp [hn, elemString]
  | str s =>
      by_cases hs : truthy (.str s) = true
      · simp [hs, elemString, toJsString]
      · simp [hs, elemString]
  | arr xs => simp [truthy, elemString, toJsString]
  | obj props => simp [truthy, elemString, toJsString]

/-- The value of the two street columns: the two address lines, each as its
text when truthy and as nothing otherwise, with one space between them. -/
theorem columnValue_street (order lineItem : JsVal) :
    columnValue order lineItem
        ("Billing Street", "billing_address.address1 billing_address.address2")
        = .ok (.str (valueText (optGet (getProp order "billing_address") "address1") ++ " "
            ++ valueText (optGet (getProp order "billing_address") "address2"))) ∧
      columnValue order lineItem
        ("Shipping Street", "shipping_address.address1 shipping_address.address2")
        = .ok (.str (valueText (optGet (getProp order "shipping_address") "address1") ++ " "
            ++ valueText (optGet (getProp order "shipping_address") "address2"))) := by
  have hb : columnValue order lineItem
      ("Billing Street", "billing_address.address1 billing_address.address2")
      = .ok (.str (elemString (orEmpty (optGet (optGet order "billing_address") "address1")) ++ " "
          ++ elemString (orEmpty (optGet (optGet order "billing_address") "address2")))) := rfl
  have hs : columnValue order lineItem
      ("Shipping Street", "shipping_address.address1 shipping_address.address2")
      = .ok (.str (elemString (orEmpty (optGet (optGet order "shipping_address") "address1")) ++ " "
          ++ elemString (orEmpty (optGet (optGet order "shipping_address") "address2")))) := rfl
  rw [hb, hs]
  simp [elemString_orEmpty, optGet_eq_getProp]

/-- An order for which a row is built is neither `null` nor `undefined`. -/
theorem buildRow_defined (order lineItem : JsVal) (row : Row)
    (h : buildRow order lineItem = .ok row) (key : String) :
    member order key = .ok (getProp order key) := by
  have hcell := buildRow_cell order lineItem row h
    ("Accepts Marketing", "buyer_accepts_marketing") (by decide)
  cases order <;> first | rfl | cases hcell

/-- In a built row, a one-path column whose traversal meets an absent or
null value at some depth holds the empty string. -/
theorem cell_missing (order lineItem : JsVal) (row : Row)
    (h : buildRow order lineItem = .ok row) (e : String × String) (he : e ∈ fieldMappings)
    (hrule : e.2 ≠ "") (hspecial : isSpecial e.1 = false) (hspace : jsIncludes e.2 ' ' = false)
    (ks1 ks2 : List String) (hkeys : ruleKeys e.2 = ks1 ++ ks2)
    (hmissing : nullish (reducePath ks1 (ruleRoot order lineItem e.2)) = true) :
    cell row e.1 = .str "" := by
  have hcell := buildRow_cell order lineItem row h e he
  rw [columnValue_single order lineItem e hrule hspecial hspace,
    orEmpty_reducePath_missing _ ks1 ks2 _ hkeys hmissing] at hcell
  exact (Except.ok.inj hcell).symm

/-- In a built row, a country column whose traversal meets an absent or null
value at some depth holds the empty string. -/
theorem country_missing (order lineItem : JsVal) (row : Row)
    (h : buildRow order lineItem = .ok row) (ks1 ks2 : List String) :
    (["billing_address", "country_code"] = ks1 ++ ks2 →
        nullish (reducePath ks1 order) = true → cell row "Billing Country" = .str "") ∧
      (["shipping_address", "country_code"] = ks1 ++ ks2 →
        nullish (reducePath ks1 order) = true → cell row "Shipping Country" = .str "") := by
  have hdef := buildRow_defined order lineItem row h "line_items"
  constructor
  · intro hkeys hmissing
    have hcell := buildRow_cell order lineItem row h
      ("Billing Country", "billing_address.country") (by decide)
    rw [(columnValue_country order lineItem _ _ hdef _ (by decide)).1,
      orEmpty_reducePath_missing _ ks1 ks2 _ hkeys hmissing] at hcell
    exact (Except.ok.inj hcell).symm
  · intro hkeys hmissing
    have hcell := buildRow_cell order lineItem row h
      ("Shipping Country", "shipping_address.country") (by decide)
    rw [(columnValue_country order lineItem _ _ hdef _ (by decide)).2,
      orEmpty_reducePath_missing _ ks1 ks2 _ hkeys hmissing] at hcell
    exact (Except.ok.inj hcell).symm

/-- In a built row, the two street columns are the two address lines, each
as its text when truthy and as nothing otherwise, around one space. -/
theorem street_cells (order lineItem : JsVal) (row : Row)
    (h : buildRow order lineItem = .ok row) :
    cell row "Billing Street"
        = .str (valueText (optGet (getProp order "billing_address") "address1") ++ " "
            ++ valueText (optGet (getProp order "billing_address") "address2")) ∧
      cell row "Shipping Street"
        = .str (valueText (optGet (getProp order "shipping_address") "address1") ++ " "
            ++ valueText (optGet (getProp order "shipping_address") "address2")) := by
  have hb := buildRow_cell order lineItem row h
    ("Billing Street", "billing_address.address1 billing_address.address2") (by decide)
  have hs := buildRow_cell order lineItem row h
    ("Shipping Street", "shipping_address.address1 shipping_address.address2") (by decide)
  rw [(columnValue_street order lineItem).1] at hb
  rw [(columnValue_street order lineItem).2] at hs
  exact ⟨(Except.ok.inj hb).symm, (Except.ok.inj hs).symm⟩

theorem valueText_nullish (v : JsVal) (key : String) (h : nullish v = true) :
    valueText (optGet v key) = "" := by
  rw [optGet_nullish v key h]
  rfl

/-- In a built row, `Accepts Marketing` is `TRUE` for a truthy flag and
`FALSE` for any other. -/
theorem accepts_marketing_cell (order lineItem : JsVal) (row : Row)
    (h : buildRow order lineItem = .ok row) :
    cell row "Accepts Marketing"
      = .str (if truthy (getProp order "buyer_accepts_marketing") then "TRUE" else "FALSE") := by
  have hcell := buildRow_cell order lineItem row h
    ("Accepts Marketing", "buyer_accepts_marketing") (by decide)
  have hvalue : columnValue order lineItem ("Accepts Marketing", "buyer_accepts_marketing")
      = (member order "buyer_accepts_marketing").bind fun flag =>
          .ok (.str (if truthy flag then "TRUE" else "FALSE")) := rfl
  rw [hvalue, buildRow_defined order lineItem row h "buyer_accepts_marketing"] at hcell
  exact (Except.ok.inj hcell).symm

/-! ## Splitting a timestamp -/

theorem splitChars_not_mem (sep : Char) :
    ∀ text : List Char, sep ∉ text → splitChars sep text = [text]
  | [], _ => rfl
  | c :: cs, h => by
      have hc : c ≠ sep := fun heq => h (by simp [heq])
      have hcs : sep ∉ cs := fun hmem => h (List.mem_cons_of_mem _ hmem)
      simp [splitChars, splitChars_not_mem sep cs hcs, hc]

theorem splitChars_append_sep (sep : Char) (after : List Char) :
    ∀ before : List Char, sep ∉ before →
      splitChars sep (before ++ sep :: after) = before :: splitChars sep after
  | [], _ => by
      cases hs : splitChars sep after with
      | nil => exact absurd hs (splitChars_ne_nil sep after)
      | cons piece pieces => simp [splitChars, hs]
  | c :: cs, h => by
      have hc : c ≠ sep := fun heq => h (by simp [heq])
      have hcs : sep ∉ cs := fun hmem => h (List.mem_cons_of_mem _ hmem)
      simp [splitChars, splitChars_append_sep sep after cs hcs, hc]

theorem not_mem_digits (text : List Char) (hdigits : ∀ c ∈ text, c.isDigit = true)
    (sep : Char) (hsep : sep.isDigit = false) : sep ∉ text := by
  intro hmem
  rw [hdigits sep hmem] at hsep
  cases hsep

theorem jsSplit_data (s : String) (sep : Char) (pieces : List String)
    (h : splitChars sep s.data = pieces.map String.data) : jsSplit s sep = pieces := by
  unfold jsSplit
  rw [h, List.map_map]
  exact List.map_id _

/-- The `Created at` branch on a timestamp of the form
`YYYY-MM-DDTHH:MM:SS` followed by a signed `HH:MM` offset. -/
theorem createdAtValue_reformat (order : JsVal)
    (year month day hour minute second sign offsetHour offsetMinute : String)
    (hyear : ∀ c ∈ year.data, c.isDigit = true) (hmonth : ∀ c ∈ month.data, c.isDigit = true)
    (hday : ∀ c ∈ day.data, c.isDigit = true) (hhour : ∀ c ∈ hour.data, c.isDigit = true)
    (hminute : ∀ c ∈ minute.data, c.isDigit = true)
    (hsecond : ∀ c ∈ second.data, c.isDigit = true)
    (hoffsetHour : ∀ c ∈ offsetHour.data, c.isDigit = true)
    (hoffsetMinute : ∀ c ∈ offsetMinute.data, c.isDigit = true)
    (hsign : sign = "+" ∨ sign = "-")
    (hraw : member order "created_at" = .ok (.str (year ++ "-" ++ month ++ "-" ++ day ++ "T"
      ++ hour ++ ":" ++ minute ++ ":" ++ second ++ sign ++ offsetHour ++ ":" ++ offsetMinute))) :
    createdAtValue order
      = .ok (.str (day ++ "-" ++ month ++ "-" ++ year ++ " " ++ hour ++ ":" ++ minute)) := by
  have hdash : "-".data = ['-'] := rfl
  have hcolon : ":".data = [':'] := rfl
  have hT : "T".data = ['T'] := rfl
  have hsignT : 'T' ∉ sign.data := by
    rcases hsign with rfl | rfl <;> decide
  have hparts : jsSplit (year ++ "-" ++ month ++ "-" ++ day ++ "T" ++ hour ++ ":" ++ minute
      ++ ":" ++ second ++ sign ++ offsetHour ++ ":" ++ offsetMinute) 'T'
      = [year ++ "-" ++ month ++ "-" ++ day,
         hour ++ ":" ++ minute ++ ":" ++ second ++ sign ++ offsetHour ++ ":" ++ offsetMinute] := by
    apply jsSplit_data
    simp only [String.data_append, hdash, hcolon, hT, List.append_assoc, List.singleton_append,
      List.cons_append, List.nil_append, List.map_cons, List.map_nil]
    have hshape : ∀ rest : List Char,
        year.data ++ '-' :: (month.data ++ '-' :: (day.data ++ 'T' :: rest))
          = (year.data ++ '-' :: (month.data ++ '-' :: day.data)) ++ 'T' :: rest := by
      intro rest
      simp
    rw [hshape, splitChars_append_sep, splitChars_not_mem]
    · simp only [List.mem_append, List.mem_cons, not_or]
      exact ⟨not_mem_digits _ hhour 'T' rfl, by decide, not_mem_digits _ hminute 'T' rfl,
        by decide, not_mem_digits _ hsecond 'T' rfl, hsignT,
        not_mem_digits _ hoffsetHour 'T' rfl, by decide, not_mem_digits _ hoffsetMinute 'T' rfl⟩
    · simp only [List.mem_append, List.mem_cons, not_or]
      exact ⟨not_mem_digits _ hyear 'T' rfl, by decide, not_mem_digits _ hmonth 'T' rfl,
        by decide, not_mem_digits _ hday 'T' rfl⟩
  have hdate : jsSplit (year ++ "-" ++ month ++ "-" ++ day) '-' = [year, month, day] := by
    apply jsSplit_data
    simp only [String.data_append, hdash, List.append_assoc, List.singleton_append,
      List.cons_append, List.nil_append, List.map_cons, List.map_nil]
    rw [splitChars_append_sep '-' _ _ (not_mem_digits _ hyear '-' rfl),
      splitChars_append_sep '-' _ _ (not_mem_digits _ hmonth '-' rfl),
      splitChars_not_mem '-' _ (not_mem_digits _ hday '-' rfl)]
  have htime : ∃ more, jsSplit (hour ++ ":" ++ minute ++ ":" ++ second ++ sign ++ offsetHour
      ++ ":" ++ offsetMinute) ':' = hour :: minute :: more := by
    refine ⟨(splitChars ':' (second.data ++ (sign.data ++ (offsetHour.data
      ++ ':' :: offsetMinute.data)))).map String.mk, ?_⟩
    unfold jsSplit
    simp only [String.data_append, hcolon, List.append_assoc, List.singleton_append,
      List.cons_append, List.nil_append]
    rw [splitChars_append_sep ':' _ _ (not_mem_digits _ hhour ':' rfl),
      splitChars_append_sep ':' _ _ (not_mem_digits _ hminute ':' rfl)]
    rfl
  obtain ⟨more, htime⟩ := htime
  unfold createdAtValue
  simp only [hraw, bind, Except.bind, hparts, destructure, List.get?_cons_zero,
    List.get?_cons_succ, hdate, htime, toJsString, pure, Except.pure]

/-! ## Columns that do not read the line item -/

theorem columnValue_order_only (order lineItem1 lineItem2 : JsVal) (e : String × String)
    (hstart : jsStartsWith e.2 "line_items." = false) :
    columnValue order lineItem1 e = columnValue order lineItem2 e := by
  simp [columnValue, cellValue, hstart]

theorem objGet_absent : ∀ (row : Row) (key : String),
    key ∉ row.map Prod.fst → objGet row key = .undefined
  | [], _, _ => rfl
  | (k, v) :: rest, key, h => by
      have hne : k ≠ key := fun heq => h (by simp [heq])
      have hrest : key ∉ rest.map Prod.fst := fun hmem => h (by simp [hmem])
      simp [objGet, hne, objGet_absent rest key hrest]

/-! ## Rules that start with the line-item marker -/

theorem jsStartsWith_append (start rest : String) : jsStartsWith (start ++ rest) start = true := by
  simp [jsStartsWith, String.data_append, List.isPrefixOf_iff_prefix]

theorem replaceFirstChars_start (pat rep rest : List Char) :
    replaceFirstChars pat rep (pat ++ rest) = rep ++ rest := by
  cases htext : pat ++ rest with
  | nil =>
      obtain ⟨hpat, hrest⟩ := List.append_eq_nil.1 htext
      simp [replaceFirstChars, hpat, hrest]
  | cons c cs =>
      have hstart : pat.isPrefixOf (c :: cs) = true := by
        rw [← htext, List.isPrefixOf_iff_prefix]
        exact List.prefix_append _ _
      simp only [replaceFirstChars, hstart, if_true]
      rw [← htext, List.drop_left]

theorem jsReplace_start (start rest : String) : jsReplace (start ++ rest) start "" = rest := by
  unfold jsReplace
  rw [String.data_append, replaceFirstChars_start]
  rfl

/-- In a built row, the cell of a rule `line_items.<p>` of the table is the
traversal of `<p>` from the line item, or the empty string when that is
falsy. -/
theorem line_item_cell (order lineItem : JsVal) (row : Row)
    (h : buildRow order lineItem = .ok row) (column path : String)
    (hrule : (column, "line_items." ++ path) ∈ fieldMappings) :
    cell row column = orEmpty (reducePath (jsSplit path '.') lineItem) := by
  have hstart := jsStartsWith_append "line_items." path
  have htable : ∀ e ∈ fieldMappings, jsStartsWith e.2 "line_items." = true →
      e.2 ≠ "" ∧ isSpecial e.1 = false ∧ jsIncludes e.2 ' ' = false := by decide
  obtain ⟨hne, hspecial, hspace⟩ := htable _ hrule hstart
  have hcell := buildRow_cell order lineItem row h _ hrule
  rw [columnValue_single order lineItem _ hne hspecial hspace] at hcell
  simp only [ruleKeys, ruleRoot, hstart, if_true, jsReplace_start] at hcell
  exact (Except.ok.inj hcell).symm

/-- In a built row, a country column is the address's `country_code`, or the
empty string when that is falsy. -/
theorem country_cells (order lineItem : JsVal) (row : Row)
    (h : buildRow order lineItem = .ok row) :
    cell row "Billing Country" = orEmpty (optGet (getProp order "billing_address") "country_code") ∧
      cell row "Shipping Country"
        = orEmpty (optGet (getProp order "shipping_address") "country_code") := by
  have hdef := buildRow_defined order lineItem row h "line_items"
  have hb := buildRow_cell order lineItem row h
    ("Billing Country", "billing_address.country") (by decide)
  have hs := buildRow_cell order lineItem row h
    ("Shipping Country", "shipping_address.country") (by decide)
  rw [(columnValue_country order lineItem _ _ hdef _ (by decide)).1] at hb
  rw [(columnValue_country order lineItem _ _ hdef _ (by decide)).2] at hs
  simp only [reducePath, List.foldl_cons, List.foldl_nil, optGet_eq_getProp] at hb hs
  simp only [optGet_eq_getProp]
  exact ⟨(Except.ok.inj hb).symm, (Except.ok.inj hs).symm⟩

theorem orEmpty_truthy (v : JsVal) (h : truthy v = true) : orEmpty v = v := by
  simp [orEmpty, h]

theorem orEmpty_falsy (v : JsVal) (h : truthy v = false) : orEmpty v = .str "" := by
  simp [orEmpty, h]

/-- In a built row, the cell of a one-path rule is the traversal of the
rule's segments from the rule's root, or the empty string when that is
falsy. -/
theorem single_cell (order lineItem : JsVal) (row : Row)
    (h : buildRow order lineItem = .ok row) (e : String × String) (he : e ∈ fieldMappings)
    (hrule : e.2 ≠ "") (hspecial : isSpecial e.1 = false) (hspace : jsIncludes e.2 ' ' = false) :
    cell row e.1 = orEmpty (reducePath (ruleKeys e.2) (ruleRoot order lineItem e.2)) := by
  have hcell := buildRow_cell order lineItem row h e he
  rw [columnValue_single order lineItem e hrule hspecial hspace] at hcell
  exact (Except.ok.inj hcell).symm

/-! ## The kinds of value a cell can hold -/

theorem orEmpty_defined (v : JsVal) : nullish (orEmpty v) = false := by
  unfold orEmpty
  cases v with
  | undefined => rfl
  | null => rfl
  | bool b => cases b <;> rfl
  | num n => split <;> rfl
  | str s => split <;> rfl
  | arr xs => rfl
  | obj props => rfl

theorem createdAtValue_isString (order v : JsVal) (h : createdAtValue order = .ok v) :
    isString v = true := by
  unfold createdAtValue at h
  cases hm : member order "created_at" with
  | error err => simp [hm, bind, Except.bind] at h
  | ok raw =>
      simp only [hm, bind, Except.bind] at h
      split at h
      · split at h
        · simp only [pure, Except.pure] at h
          cases h
          rfl
        · cases h
      · cases h

theorem columnValue_defined (order lineItem : JsVal) (e : String × String) (v : JsVal)
    (h : columnValue order lineItem e = .ok v) : nullish v = false := by
  unfold columnValue cellValue at h
  split_ifs at h
  · cases h
    rfl
  · cases hm : member order "buyer_accepts_marketing" with
    | error err => simp [hm, bind, Except.bind] at h
    | ok flag =>
        simp only [hm, bind, Except.bind, pure, Except.pure] at h
        cases h
        rfl
  · have hs := createdAtValue_isString order v h
    cases v <;> first | rfl | cases hs
  · cases hm : member order "billing_address" with
    | error err => simp [hm, bind, Except.bind] at h
    | ok address =>
        simp only [hm, bind, Except.bind, pure, Except.pure] at h
        cases h
        exact orEmpty_defined _
  · cases hm : member order "shipping_address" with
    | error err => simp [hm, bind, Except.bind] at h
    | ok address =>
        simp only [hm, bind, Except.bind, pure, Except.pure] at h
        cases h
        exact orEmpty_defined _
  · cases h
    rfl
  · cases h
    rfl
  · cases h
    exact orEmpty_defined _
  · cases h
    exact orEmpty_defined _

theorem mem_zip_right {α β : Type} : ∀ (xs : List α) (ys : List β) (p : α × β),
    p ∈ xs.zip ys → p.2 ∈ ys
  | [], _, _, h => by simp at h
  | _ :: _, [], _, h => by simp at h
  | x :: xs, y :: ys, p, h => by
      rw [List.zip_cons_cons] at h
      rcases List.mem_cons.1 h with heq | hmem
      · subst heq
        exact List.mem_cons_self _ _
      · exact List.mem_cons_of_mem _ (mem_zip_right xs ys p hmem)

/-- No entry of a built row holds `null` or `undefined`. -/
theorem buildRow_defined_cells (order lineItem : JsVal) (row : Row)
    (h : buildRow order lineItem = .ok row) : ∀ kv ∈ row, nullish kv.2 = false := by
  obtain ⟨vals, hvals, hrow⟩ := (buildRow_ok_iff order lineItem row).1 h
  intro kv hkv
  rw [hrow] at hkv
  obtain ⟨e, _, hvalue⟩ := forall₂_mem_right _ _ _ hvals kv.2 (mem_zip_right _ _ kv hkv)
  exact columnValue_defined order lineItem e kv.2 hvalue

/-! ## Failures -/

/-- A column of the table that cannot be computed makes the row fail. -/
theorem buildRow_error (order lineItem : JsVal) (e : String × String) (he : e ∈ fieldMappings)
    (err : JsError) (hfail : columnValue order lineItem e = .error err) :
    buildRow order lineItem = .error .typeError := by
  cases hbuilt : buildRow order lineItem with
  | ok row =>
      have hcell := buildRow_cell order lineItem row hbuilt e he
      rw [hfail] at hcell
      cases hcell
  | error err2 =>
      cases err2
      rfl

theorem forall₂_mem_left {α β : Type} (R : α → β → Prop) (xs : List α) (ys : List β)
    (h : List.Forall₂ R xs ys) : ∀ x ∈ xs, ∃ y ∈ ys, R x y := by
  induction h with
  | nil =>
      intro x hx
      simp at hx
  | cons hhead _ ih =>
      intro x hx
      rcases List.mem_cons.1 hx with heq | hmem
      · subst heq
        exact ⟨_, List.mem_cons_self _ _, hhead⟩
      · obtain ⟨y, hy, hR⟩ := ih x hmem
        exact ⟨y, List.mem_cons_of_mem _ hy, hR⟩

/-- An order with a line item whose row cannot be built makes the whole
function fail. -/
theorem flattenOrders_error (orders : List JsVal) (order item : JsVal) (items : List JsVal)
    (horder : order ∈ orders)
    (hitems : member order "line_items" = .ok (.arr (item :: items)))
    (hfail : buildRow order item = .error .typeError) :
    flattenOrders orders = .error .typeError := by
  cases hflat : flattenOrders orders with
  | error err =>
      cases err
      rfl
  | ok out =>
      obtain ⟨groups, hgroups, _⟩ := (flattenOrders_ok_iff orders out).1 hflat
      obtain ⟨group, _, visited, hvisited, hbuilt⟩ := forall₂_mem_left _ _ _ hgroups order horder
      simp only [lineItemsOf, hitems, bind, Except.bind, iterate, pure, Except.pure] at hvisited
      cases hvisited
      cases hbuilt with
      | cons hhead _ =>
          rw [hfail] at hhead
          cases hhead

/-- The `Created at` branch fails on a string without a `T`. -/
theorem createdAtValue_error (order : JsVal) (raw : String)
    (hraw : member order "created_at" = .ok (.str raw)) (hT : 'T' ∉ raw.data) :
    createdAtValue order = .error .typeError := by
  unfold createdAtValue
  simp only [hraw, bind, Except.bind, jsSplit, splitChars_not_mem 'T' raw.data hT, destructure,
    List.map_cons, List.map_nil, List.get?_cons_zero, List.get?_cons_succ, List.get?_nil]
  rfl

/-- The `Created at` branch on a date part, a `T` and a time part without a
colon: the time part stands for the hour and the minute is missing. -/
theorem createdAtValue_no_colon (order : JsVal) (date time : String)
    (hraw : member order "created_at" = .ok (.str (date ++ "T" ++ time)))
    (hdate : 'T' ∉ date.data) (htime : 'T' ∉ time.data) (hcolon : ':' ∉ time.data) :
    createdAtValue order
      = .ok (.str (toJsString (destructure (jsSplit date '-') 2) ++ "-"
          ++ toJsString (destructure (jsSplit date '-') 1) ++ "-"
          ++ toJsString (destructure (jsSplit date '-') 0) ++ " " ++ time ++ ":" ++ "undefined")) := by
  have hT : "T".data = ['T'] := rfl
  have hparts : jsSplit (date ++ "T" ++ time) 'T' = [date, time] := by
    apply jsSplit_data
    simp only [String.data_append, hT, List.append_assoc, List.singleton_append,
      List.map_cons, List.map_nil]
    rw [splitChars_append_sep 'T' _ _ hdate, splitChars_not_mem 'T' _ htime]
  have hfields : jsSplit time ':' = [time] := by
    apply jsSplit_data
    rw [splitChars_not_mem ':' _ hcolon]
    rfl
  unfold createdAtValue
  simp only [hraw, bind, Except.bind, hparts, destructure, List.get?_cons_zero,
    List.get?_cons_succ, hfields, List.get?_nil, toJsString, pure, Except.pure]

/-! ## The upload names -/

theorem expandReplacement_plain (matched before after : List Char) :
    ∀ text : List Char, '$' ∉ text → expandReplacement matched before after text = text
  | [], _ => rfl
  | [_], _ => rfl
  | c :: d :: rest, h => by
      have hc : c ≠ '$' := fun heq => h (by simp [heq])
      have hrest : '$' ∉ d :: rest := fun hmem => h (List.mem_cons_of_mem _ hmem)
      simp [expandReplacement, hc, expandReplacement_plain matched before after (d :: rest) hrest]

/-- A path that ends in `orders.csv` gets the replacement in its place. -/
theorem replaceOrdersCsv_end (start replacement : String) (hplain : '$' ∉ replacement.data) :
    replaceOrdersCsv (start ++ "orders.csv") replacement = start ++ replacement := by
  have hdata : (start ++ "orders.csv").data = start.data ++ "orders.csv".data :=
    String.data_append _ _
  have hend : "orders.csv".data.isSuffixOf (start ++ "orders.csv").data = true := by
    rw [hdata, List.isSuffixOf_iff_suffix]
    exact List.suffix_append _ _
  have hlen : (start.data ++ "orders.csv".data).length - 10 = start.data.length := by
    rw [List.length_append]
    show start.data.length + 10 - 10 = start.data.length
    omega
  unfold replaceOrdersCsv
  rw [if_pos hend]
  apply String.ext
  show List.take _ (start ++ "orders.csv").data ++ _ = (start ++ replacement).data
  rw [expandReplacement_plain _ _ _ _ hplain, hdata, hlen, List.take_left' rfl,
    String.data_append]

/-- A path that does not end in `orders.csv` is left as it is. -/
theorem replaceOrdersCsv_other (path replacement : String)
    (hend : ¬ ∃ start : String, path = start ++ "orders.csv") :
    replaceOrdersCsv path replacement = path := by
  unfold replaceOrdersCsv
  rw [if_neg]
  intro hsuffix
  rw [List.isSuffixOf_iff_suffix] at hsuffix
  obtain ⟨start, hstart⟩ := hsuffix
  exact hend ⟨String.mk start, String.ext (by rw [String.data_append]; exact hstart.symm)⟩

/-- The first ten characters of a timestamp, hyphens removed. -/
theorem today_digits (year month day rest : String)
    (hyear : year.length = 4) (hmonth : month.length = 2) (hday : day.length = 2)
    (hyearDigits : ∀ c ∈ year.data, c.isDigit = true)
    (hmonthDigits : ∀ c ∈ month.data, c.isDigit = true)
    (hdayDigits : ∀ c ∈ day.data, c.isDigit = true) :
    removeChar (sliceTo (year ++ "-" ++ month ++ "-" ++ day ++ rest) 10) '-'
      = year ++ month ++ day := by
  have hdash : "-".data = ['-'] := rfl
  have hkeep : ∀ text : List Char, (∀ c ∈ text, c.isDigit = true) →
      text.filter (fun ch => ch != '-') = text := by
    intro text htext
    rw [List.filter_eq_self]
    intro c hc
    have hne : c ≠ '-' := fun heq => not_mem_digits text htext '-' rfl (heq ▸ hc)
    simpa using hne
  have hlen : (year.data ++ '-' :: (month.data ++ '-' :: day.data)).length = 10 := by
    have h1 : year.data.length = 4 := hyear
    have h2 : month.data.length = 2 := hmonth
    have h3 : day.data.length = 2 := hday
    simp [h1, h2, h3]
  apply String.ext
  show List.filter _ (List.take 10 (year ++ "-" ++ month ++ "-" ++ day ++ rest).data)
    = (year ++ month ++ day).data
  simp only [String.data_append, hdash, List.append_assoc, List.singleton_append,
    List.cons_append, List.nil_append]
  have hshape : year.data ++ '-' :: (month.data ++ '-' :: (day.data ++ rest.data))
      = (year.data ++ '-' :: (month.data ++ '-' :: day.data)) ++ rest.data := by simp
  rw [hshape, List.take_left' hlen]
  simp [List.filter_append, List.filter_cons, hkeep _ hyearDigits, hkeep _ hmonthDigits,
    hkeep _ hdayDigits]

/-! ## The text of a number -/

/-- The text of some numbers: integers as their digits, `1e21` and beyond in
exponent form, fractions with a point, small fractions in exponent form. -/
theorem numberText_samples :
    numberText (.ofNat 5001) = "5001" ∧ numberText (.ofNat 250) = "250" ∧
      numberText (.ofNat 0) = "0" ∧ numberText (.finite true [] 0) = "0" ∧
      numberText (.finite false [1] 21) = "100000000000000000000" ∧
      numberText (.finite false [1] 22) = "1e+21" ∧
      numberText (.finite false [1, 1, 8] 22) = "1.18e+21" ∧
      numberText (.finite true [1, 2, 5] 2) = "-12.5" ∧
      numberText (.finite false [5] 0) = "0.5" ∧
      numberText (.finite false [1] (-5)) = "0.000001" ∧
      numberText (.finite false [1] (-6)) = "1e-7" := by
  refine ⟨by decide, by decide, by decide, by decide, by decide, by decide, by decide,
    by decide, by decide, by decide, by decide⟩

/-! ## Rules with several paths, all of them order paths -/

theorem splitChars_start (sep : Char) (rest : List Char) :
    ∀ start : List Char, sep ∉ start →
      ∃ piece pieces, splitChars sep (start ++ rest) = (start ++ piece) :: pieces
  | [], _ => by
      cases hs : splitChars sep rest with
      | nil => exact absurd hs (splitChars_ne_nil sep rest)
      | cons piece pieces => exact ⟨piece, pieces, by simpa using hs⟩
  | c :: cs, h => by
      have hc : c ≠ sep := fun heq => h (by simp [heq])
      have hcs : sep ∉ cs := fun hmem => h (List.mem_cons_of_mem _ hmem)
      obtain ⟨piece, pieces, hsplit⟩ := splitChars_start sep rest cs hcs
      exact ⟨piece, pieces, by simp [splitChars, hsplit, hc]⟩

/-- A rule that starts with `line_items.` has a first sub-path that starts
with it. -/
theorem first_sub_path_start (rule : String)
    (hstart : jsStartsWith rule "line_items." = true) :
    ∃ path ∈ jsSplit rule ' ', jsStartsWith path "line_items." = true := by
  unfold jsStartsWith at hstart
  rw [List.isPrefixOf_iff_prefix] at hstart
  obtain ⟨rest, hrest⟩ := hstart
  obtain ⟨piece, pieces, hsplit⟩ :=
    splitChars_start ' ' rest "line_items.".data (by decide)
  refine ⟨String.mk ("line_items.".data ++ piece), ?_, ?_⟩
  · unfold jsSplit
    rw [← hrest, hsplit]
    exact List.mem_cons_self _ _
  · unfold jsStartsWith
    rw [List.isPrefixOf_iff_prefix]
    exact List.prefix_append _ _

/-- The value of a column whose rule has a space and only order paths as
sub-paths: every sub-path is read from its own root. -/
theorem cellValue_order_paths (order lineItem : JsVal) (csvField rule : String)
    (hspecial : isSpecial csvField = false) (hspace : jsIncludes rule ' ' = true)
    (hpaths : ∀ path ∈ jsSplit rule ' ', jsStartsWith path "line_items." = false) :
    cellValue order lineItem csvField rule
      = .ok (.str (joinWith " " ((jsSplit rule ' ').map fun path =>
          elemString (orEmpty (subPathValue order lineItem path))))) := by
  simp only [isSpecial, Bool.or_eq_false_iff, decide_eq_false_iff_not] at hspecial
  obtain ⟨⟨⟨h1, h2⟩, h3⟩, h4⟩ := hspecial
  have hrule : jsStartsWith rule "line_items." = false := by
    cases hstart : jsStartsWith rule "line_items."
    · rfl
    · obtain ⟨path, hpath, hpathStart⟩ := first_sub_path_start rule hstart
      rw [hpaths path hpath] at hpathStart
      cases hpathStart
  have hmap : (jsSplit rule ' ').map (fun path =>
        elemString (orEmpty (reducePath (jsSplit path '.') order)))
      = (jsSplit rule ' ').map fun path =>
        elemString (orEmpty (subPathValue order lineItem path)) := by
    apply List.map_congr_left
    intro path hpath
    simp only [subPathValue, ruleKeys, ruleRoot, hpaths path hpath, Bool.false_eq_true, if_false]
  unfold cellValue
  simp only [h1, h2, h3, h4, hspace, hrule, if_true, if_false, Bool.false_eq_true, pure,
    Except.pure, hmap]

/-! ## Row count and row order -/

/-- C1, as stated, fails: an order whose `line_items` is an array of one item
but which has no `created_at` makes `flattenOrders` raise a `TypeError`, so no
row is returned for its line item. -/
theorem flattenOrders_array_items_can_fail :
    (∃ items, member orderWithoutDate "line_items" = .ok (.arr items) ∧ items.length = 1) ∧
      flattenOrders [orderWithoutDate] = .error .typeError :=
  ⟨⟨_, rfl, rfl⟩, rfl⟩

/-- C1, amended: when every order's `line_items` is an array and every order
with at least one line item has a `created_at` string containing a `T`,
`flattenOrders` returns, the number of rows is the sum of the orders' line
item counts, and the rows come in order-then-line-item order: the result is
the concatenation, in input order, of one group per order, whose k-th row is
the row built from that order's k-th line item. -/
theorem flattenOrders_rows_in_order (orders : List JsVal)
    (harr : ∀ order ∈ orders, ∃ items, member order "line_items" = .ok (.arr items))
    (hdate : ∀ order ∈ orders, arrayItems (getProp order "line_items") ≠ [] →
      ∃ raw, member order "created_at" = .ok (.str raw) ∧ 'T' ∈ raw.data) :
    ∃ groups : List (List Row),
      flattenOrders orders = .ok groups.flatten ∧
      groups.flatten.length
        = (orders.map fun order => (arrayItems (getProp order "line_items")).length).sum ∧
      List.Forall₂ (fun order group =>
        List.Forall₂ (fun lineItem row => buildRow order lineItem = .ok row)
          (arrayItems (getProp order "line_items")) group) orders groups := by
  induction orders with
  | nil => exact ⟨[], rfl, rfl, List.Forall₂.nil⟩
  | cons order rest ih =>
      obtain ⟨groups, hflat, hlen, hgroups⟩ := ih
        (fun o ho => harr o (List.mem_cons_of_mem _ ho))
        (fun o ho => hdate o (List.mem_cons_of_mem _ ho))
      obtain ⟨items, hitems⟩ := harr order (List.mem_cons_self _ _)
      have hget : getProp order "line_items" = .arr items := by
        have := member_defined order _ _ hitems "line_items"
        rw [hitems] at this
        exact (Except.ok.inj this).symm
      have hgroup : ∃ group,
          List.Forall₂ (fun lineItem row => buildRow order lineItem = .ok row) items group := by
        cases items with
        | nil => exact ⟨[], List.Forall₂.nil⟩
        | cons item more =>
            obtain ⟨raw, hraw, hT⟩ := hdate order (List.mem_cons_self _ _) (by simp [hget, arrayItems])
            exact forall₂_buildRow order _ _ hitems (createdAtValue_ok order raw hraw hT) _
      obtain ⟨group, hgroup⟩ := hgroup
      obtain ⟨tailGroups, htail, hjoin⟩ := (flattenOrders_ok_iff rest _).1 hflat
      refine ⟨group :: groups, ?_, ?_, ?_⟩
      · refine (flattenOrders_ok_iff _ _).2 ⟨group :: tailGroups, List.Forall₂.cons ?_ htail, ?_⟩
        · exact ⟨items, by simp [lineItemsOf, hitems, bind, Except.bind, iterate, pure, Except.pure],
            hgroup⟩
        · simp [hjoin]
      · simp only [List.flatten_cons, List.length_append, List.map_cons, List.sum_cons, hlen, hget,
          arrayItems]
        rw [hgroup.length_eq]
      · exact List.Forall₂.cons (by simpa [hget, arrayItems] using hgroup) hgroups

/-- A run of C1 (amended) on the sample order followed by an order with no
line items: two rows. -/
theorem flattenOrders_rows_in_order_witness :
    ∃ groups : List (List Row),
      flattenOrders [sampleOrder, orderWithoutItems] = .ok groups.flatten ∧
      groups.flatten.length
        = ([sampleOrder, orderWithoutItems].map fun order =>
            (arrayItems (getProp order "line_items")).length).sum ∧
      List.Forall₂ (fun order group =>
        List.Forall₂ (fun lineItem row => buildRow order lineItem = .ok row)
          (arrayItems (getProp order "line_items")) group)
        [sampleOrder, orderWithoutItems] groups :=
  flattenOrders_rows_in_order [sampleOrder, orderWithoutItems]
    (by
      intro order horder
      simp only [List.mem_cons, List.mem_singleton, List.not_mem_nil, or_false] at horder
      rcases horder with rfl | rfl
      · exact ⟨_, rfl⟩
      · exact ⟨_, rfl⟩)
    (by
      intro order horder hne
      simp only [List.mem_cons, List.mem_singleton, List.not_mem_nil, or_false] at horder
      rcases horder with rfl | rfl
      · exact ⟨"2025-03-27T11:51:11-04:00", rfl, by decide⟩
      · exact absurd rfl hne)

/-! ## Column names -/

/-- C2: every row that `flattenOrders` returns lists exactly the keys of
`fieldMappings` as its column names: all 52 of them, each once, in table
order, whatever the order and line item contain. -/
theorem flattenOrders_columns (orders : List JsVal) (out : List Row)
    (h : flattenOrders orders = .ok out) :
    ∀ row ∈ out, row.map Prod.fst = fieldMappings.map Prod.fst ∧
      (row.map Prod.fst).length = 52 ∧ (row.map Prod.fst).Nodup := by
  intro row hrow
  obtain ⟨order, _, items, _, lineItem, _, hbuilt⟩ := flattenOrders_row_origin orders out h row hrow
  have hkeys := buildRow_keys order lineItem row hbuilt
  rw [hkeys]
  exact ⟨rfl, rfl, fieldMappings_keys_nodup⟩

/-- A run of C2 on the sample order, which returns two rows. -/
theorem flattenOrders_columns_witness :
    flattenOrders [sampleOrder] = .ok sampleRows ∧ sampleRows.length = 2 ∧
      ∀ row ∈ sampleRows, row.map Prod.fst = fieldMappings.map Prod.fst ∧
        (row.map Prod.fst).length = 52 ∧ (row.map Prod.fst).Nodup :=
  ⟨rfl, rfl, flattenOrders_columns [sampleOrder] sampleRows rfl⟩

/-! ## An order without a billing address -/

/-- C3, as stated, fails: for a well-formed order without `billing_address`
the function returns, but the `Billing Street` cell of its row is a single
space, not the empty string. -/
theorem billing_street_without_address_is_a_space :
    getProp orderWithoutBilling "billing_address" = .undefined ∧
      flattenOrders [orderWithoutBilling] = .ok [rowWithoutBilling] ∧
      cell rowWithoutBilling "Billing Street" = .str " " ∧
      cell rowWithoutBilling "Billing Street" ≠ .str "" :=
  ⟨rfl, rfl, rfl, fun h => absurd (JsVal.str.inj h) (by decide)⟩

/-- C3, amended: for every order without `billing_address` whose
`line_items` is an array and whose `created_at` is a string with a `T` in
it, `flattenOrders` returns one row per line item, and in each row the ten
billing columns other than `Billing Street` hold the empty string while
`Billing Street` holds a single space. -/
theorem missing_billing_address (order : JsVal) (items : List JsVal) (raw : String)
    (hitems : member order "line_items" = .ok (.arr items))
    (hraw : member order "created_at" = .ok (.str raw)) (hT : 'T' ∈ raw.data)
    (hbilling : getProp order "billing_address" = .undefined) :
    ∃ rows, flattenOrders [order] = .ok rows ∧ rows.length = items.length ∧
      ∀ row ∈ rows,
        (∀ column ∈ ["Billing Name", "Billing Address1", "Billing Address2", "Billing Company",
            "Billing City", "Billing Zip", "Billing Province", "Billing Country", "Billing Phone",
            "Billing Province Name"], cell row column = .str "") ∧
          cell row "Billing Street" = .str " " := by
  obtain ⟨rows, hflat, hrows⟩ :=
    flattenOrders_one order items hitems (createdAtValue_ok order raw hraw hT)
  refine ⟨rows, hflat, hrows.length_eq.symm, ?_⟩
  intro row hrow
  obtain ⟨lineItem, _, hbuilt⟩ := forall₂_mem_right _ items rows hrows row hrow
  have hmissing : nullish (reducePath ["billing_address"] order) = true := by
    show nullish (optGet order "billing_address") = true
    rw [optGet_eq_getProp, hbilling]
    rfl
  have plain : ∀ e ∈ fieldMappings, e.2 ≠ "" → isSpecial e.1 = false →
      jsIncludes e.2 ' ' = false → jsStartsWith e.2 "line_items." = false →
      (∃ ks, jsSplit e.2 '.' = ["billing_address"] ++ ks) → cell row e.1 = .str "" := by
    intro e he hrule hspecial hspace hstart hkeys
    obtain ⟨ks, hks⟩ := hkeys
    refine cell_missing order lineItem row hbuilt e he hrule hspecial hspace
      ["billing_address"] ks ?_ ?_
    · simp only [ruleKeys, hstart, Bool.false_eq_true, if_false, hks]
    · simpa only [ruleRoot, hstart, Bool.false_eq_true, if_false] using hmissing
  have hname := plain ("Billing Name", "billing_address.name")
    (by decide) (by decide) rfl rfl rfl ⟨_, rfl⟩
  have haddress1 := plain ("Billing Address1", "billing_address.address1")
    (by decide) (by decide) rfl rfl rfl ⟨_, rfl⟩
  have haddress2 := plain ("Billing Address2", "billing_address.address2")
    (by decide) (by decide) rfl rfl rfl ⟨_, rfl⟩
  have hcompany := plain ("Billing Company", "billing_address.company")
    (by decide) (by decide) rfl rfl rfl ⟨_, rfl⟩
  have hcity := plain ("Billing City", "billing_address.city")
    (by decide) (by decide) rfl rfl rfl ⟨_, rfl⟩
  have hzip := plain ("Billing Zip", "billing_address.zip")
    (by decide) (by decide) rfl rfl rfl ⟨_, rfl⟩
  have hprovince := plain ("Billing Province", "billing_address.province_code")
    (by decide) (by decide) rfl rfl rfl ⟨_, rfl⟩
  have hphone := plain ("Billing Phone", "billing_address.phone")
    (by decide) (by decide) rfl rfl rfl ⟨_, rfl⟩
  have hprovinceName := plain ("Billing Province Name", "billing_address.province_code")
    (by decide) (by decide) rfl rfl rfl ⟨_, rfl⟩
  have hcountry := (country_missing order lineItem row hbuilt ["billing_address"]
    ["country_code"]).1 rfl hmissing
  constructor
  · intro column hcolumn
    simp only [List.mem_cons, List.mem_singleton, List.not_mem_nil, or_false] at hcolumn
    rcases hcolumn with rfl | rfl | rfl | rfl | rfl | rfl | rfl | rfl | rfl | rfl
    · exact hname
    · exact haddress1
    · exact haddress2
    · exact hcompany
    · exact hcity
    · exact hzip
    · exact hprovince
    · exact hcountry
    · exact hphone
    · exact hprovinceName
  · rw [(street_cells order lineItem row hbuilt).1, hbilling]
    rfl

/-- A run of C3 (amended) on the order without a billing address. -/
theorem missing_billing_address_witness :
    ∃ rows, flattenOrders [orderWithoutBilling] = .ok rows ∧ rows.length = 1 ∧
      ∀ row ∈ rows,
        (∀ column ∈ ["Billing Name", "Billing Address1", "Billing Address2", "Billing Company",
            "Billing City", "Billing Zip", "Billing Province", "Billing Country", "Billing Phone",
            "Billing Province Name"], cell row column = .str "") ∧
          cell row "Billing Street" = .str " " :=
  missing_billing_address orderWithoutBilling _ "2025-03-27T11:51:11-04:00" rfl rfl
    (by decide) rfl

/-! ## Missing fields -/

/-- C4, as stated, fails twice over. An order with a line item and no
`created_at` makes `flattenOrders` raise a `TypeError`; and an order without
`shipping_address` gets a `Shipping Street` cell that is a single space, not
the empty string. -/
theorem missing_fields_not_always_empty :
    (getProp orderWithoutDate "created_at" = .undefined ∧
        (∃ items, member orderWithoutDate "line_items" = .ok (.arr items)) ∧
        buildRow orderWithoutDate (.obj [("name", .str "Alarm")]) = .error .typeError ∧
        flattenOrders [orderWithoutDate] = .error .typeError) ∧
      (getProp orderWithoutBilling "shipping_address" = .undefined ∧
        flattenOrders [orderWithoutBilling] = .ok [rowWithoutBilling] ∧
        cell rowWithoutBilling "Shipping Street" = .str " " ∧
        cell rowWithoutBilling "Shipping Street" ≠ .str "") :=
  ⟨⟨rfl, ⟨_, rfl⟩, rfl, rfl⟩, rfl, rfl, rfl, fun h => absurd (JsVal.str.inj h) (by decide)⟩

/-- C4, amended: for every order whose `line_items` is an array and whose
`created_at` is a string with a `T` in it, and every line item, the row is
built without an error, and a field that is absent or null at any depth of a
traversal gives: the empty string in every one-path column (plain or line
item) and in the two country columns; a single space in a street column both
of whose address lines are missing; `FALSE` in `Accepts Marketing`. -/
theorem missing_fields_give_empty (order lineItem : JsVal) (items : List JsVal) (raw : String)
    (hitems : member order "line_items" = .ok (.arr items))
    (hraw : member order "created_at" = .ok (.str raw)) (hT : 'T' ∈ raw.data) :
    ∃ row, buildRow order lineItem = .ok row ∧
      (∀ e ∈ fieldMappings, e.2 ≠ "" → isSpecial e.1 = false → jsIncludes e.2 ' ' = false →
        ∀ ks1 ks2, ruleKeys e.2 = ks1 ++ ks2 →
          nullish (reducePath ks1 (ruleRoot order lineItem e.2)) = true →
          cell row e.1 = .str "") ∧
      (∀ ks1 ks2, ["billing_address", "country_code"] = ks1 ++ ks2 →
        nullish (reducePath ks1 order) = true → cell row "Billing Country" = .str "") ∧
      (∀ ks1 ks2, ["shipping_address", "country_code"] = ks1 ++ ks2 →
        nullish (reducePath ks1 order) = true → cell row "Shipping Country" = .str "") ∧
      (nullish (reducePath ["billing_address", "address1"] order) = true →
        nullish (reducePath ["billing_address", "address2"] order) = true →
        cell row "Billing Street" = .str " ") ∧
      (nullish (reducePath ["shipping_address", "address1"] order) = true →
        nullish (reducePath ["shipping_address", "address2"] order) = true →
        cell row "Shipping Street" = .str " ") ∧
      (nullish (getProp order "buyer_accepts_marketing") = true →
        cell row "Accepts Marketing" = .str "FALSE") := by
  obtain ⟨row, hbuilt⟩ :=
    buildRow_ok order lineItem _ _ hitems (createdAtValue_ok order raw hraw hT)
  have hhalf : ∀ v : JsVal, nullish v = true → valueText v = "" := by
    intro v hv
    cases v <;> first | rfl | cases hv
  refine ⟨row, hbuilt, ?_, ?_, ?_, ?_, ?_, ?_⟩
  · intro e he hrule hspecial hspace ks1 ks2 hkeys hmissing
    exact cell_missing order lineItem row hbuilt e he hrule hspecial hspace ks1 ks2 hkeys hmissing
  · intro ks1 ks2
    exact (country_missing order lineItem row hbuilt ks1 ks2).1
  · intro ks1 ks2
    exact (country_missing order lineItem row hbuilt ks1 ks2).2
  · intro h1 h2
    have h1' : nullish (optGet (getProp order "billing_address") "address1") = true := by
      simpa [reducePath, optGet_eq_getProp] using h1
    have h2' : nullish (optGet (getProp order "billing_address") "address2") = true := by
      simpa [reducePath, optGet_eq_getProp] using h2
    rw [(street_cells order lineItem row hbuilt).1, hhalf _ h1', hhalf _ h2']
    rfl
  · intro h1 h2
    have h1' : nullish (optGet (getProp order "shipping_address") "address1") = true := by
      simpa [reducePath, optGet_eq_getProp] using h1
    have h2' : nullish (optGet (getProp order "shipping_address") "address2") = true := by
      simpa [reducePath, optGet_eq_getProp] using h2
    rw [(street_cells order lineItem row hbuilt).2, hhalf _ h1', hhalf _ h2']
    rfl
  · intro hflag
    rw [accepts_marketing_cell order lineItem row hbuilt]
    cases hv : getProp order "buyer_accepts_marketing" <;> rw [hv] at hflag <;>
      first | rfl | cases hflag

/-- A run of C4 (amended) on the order without addresses and its line item. -/
theorem missing_fields_give_empty_witness :
    ∃ row, buildRow orderWithoutBilling (.obj [("name", .str "Alarm"), ("sku", .str "FA-1")])
        = .ok row ∧
      (∀ e ∈ fieldMappings, e.2 ≠ "" → isSpecial e.1 = false → jsIncludes e.2 ' ' = false →
        ∀ ks1 ks2, ruleKeys e.2 = ks1 ++ ks2 →
          nullish (reducePath ks1 (ruleRoot orderWithoutBilling
            (.obj [("name", .str "Alarm"), ("sku", .str "FA-1")]) e.2)) = true →
          cell row e.1 = .str "") ∧
      (∀ ks1 ks2, ["billing_address", "country_code"] = ks1 ++ ks2 →
        nullish (reducePath ks1 orderWithoutBilling) = true →
        cell row "Billing Country" = .str "") ∧
      (∀ ks1 ks2, ["shipping_address", "country_code"] = ks1 ++ ks2 →
        nullish (reducePath ks1 orderWithoutBilling) = true →
        cell row "Shipping Country" = .str "") ∧
      (nullish (reducePath ["billing_address", "address1"] orderWithoutBilling) = true →
        nullish (reducePath ["billing_address", "address2"] orderWithoutBilling) = true →
        cell row "Billing Street" = .str " ") ∧
      (nullish (reducePath ["shipping_address", "address1"] orderWithoutBilling) = true →
        nullish (reducePath ["shipping_address", "address2"] orderWithoutBilling) = true →
        cell row "Shipping Street" = .str " ") ∧
      (nullish (getProp orderWithoutBilling "buyer_accepts_marketing") = true →
        cell row "Accepts Marketing" = .str "FALSE") :=
  missing_fields_give_empty orderWithoutBilling _ _ "2025-03-27T11:51:11-04:00" rfl rfl
    (by decide)

/-! ## Accepts Marketing -/

/-- C5: in the row built for any order and line item, the
`Accepts Marketing` cell is `TRUE` or `FALSE` and nothing else; it is `TRUE`
when `buyer_accepts_marketing` is `true`, and `FALSE` when it is `false` or
absent. -/
theorem accepts_marketing_column (order lineItem : JsVal) (row : Row)
    (h : buildRow order lineItem = .ok row) :
    (cell row "Accepts Marketing" = .str "TRUE" ∨ cell row "Accepts Marketing" = .str "FALSE") ∧
      (getProp order "buyer_accepts_marketing" = .bool true →
        cell row "Accepts Marketing" = .str "TRUE") ∧
      (getProp order "buyer_accepts_marketing" = .bool false ∨
          getProp order "buyer_accepts_marketing" = .undefined →
        cell row "Accepts Marketing" = .str "FALSE") := by
  rw [accepts_marketing_cell order lineItem row h]
  refine ⟨?_, ?_, ?_⟩
  · cases truthy (getProp order "buyer_accepts_marketing")
    · exact Or.inr rfl
    · exact Or.inl rfl
  · intro htrue
    rw [htrue]
    rfl
  · rintro (hfalse | habsent)
    · rw [hfalse]
      rfl
    · rw [habsent]
      rfl

/-- A run of C5 on the sample order, whose flag is `true`, and its first
line item. -/
theorem accepts_marketing_column_witness :
    buildRow sampleOrder sampleItem = .ok sampleRow ∧
      getProp sampleOrder "buyer_accepts_marketing" = .bool true ∧
      (cell sampleRow "Accepts Marketing" = .str "TRUE" ∨
        cell sampleRow "Accepts Marketing" = .str "FALSE") ∧
      (getProp sampleOrder "buyer_accepts_marketing" = .bool true →
        cell sampleRow "Accepts Marketing" = .str "TRUE") ∧
      (getProp sampleOrder "buyer_accepts_marketing" = .bool false ∨
          getProp sampleOrder "buyer_accepts_marketing" = .undefined →
        cell sampleRow "Accepts Marketing" = .str "FALSE") :=
  ⟨rfl, rfl, accepts_marketing_column sampleOrder sampleItem sampleRow rfl⟩

/-! ## Created at -/

/-- C6: for every `created_at` of the form `YYYY-MM-DDTHH:MM:SS` followed by
a sign and an `HH:MM` offset, each group a run of digits, the row is built
and its `Created at` cell is `DD-MM-YYYY HH:MM`, made of the same day, month,
year, hour and minute digits; seconds and offset are dropped. -/
theorem created_at_column (order lineItem : JsVal)
    (year month day hour minute second sign offsetHour offsetMinute : String)
    (hyear : ∀ c ∈ year.data, c.isDigit = true) (hmonth : ∀ c ∈ month.data, c.isDigit = true)
    (hday : ∀ c ∈ day.data, c.isDigit = true) (hhour : ∀ c ∈ hour.data, c.isDigit = true)
    (hminute : ∀ c ∈ minute.data, c.isDigit = true)
    (hsecond : ∀ c ∈ second.data, c.isDigit = true)
    (hoffsetHour : ∀ c ∈ offsetHour.data, c.isDigit = true)
    (hoffsetMinute : ∀ c ∈ offsetMinute.data, c.isDigit = true)
    (hsign : sign = "+" ∨ sign = "-")
    (hraw : member order "created_at" = .ok (.str (year ++ "-" ++ month ++ "-" ++ day ++ "T"
      ++ hour ++ ":" ++ minute ++ ":" ++ second ++ sign ++ offsetHour ++ ":" ++ offsetMinute))) :
    ∃ row, buildRow order lineItem = .ok row ∧
      cell row "Created at"
        = .str (day ++ "-" ++ month ++ "-" ++ year ++ " " ++ hour ++ ":" ++ minute) := by
  have hvalue := createdAtValue_reformat order year month day hour minute second sign offsetHour
    offsetMinute hyear hmonth hday hhour hminute hsecond hoffsetHour hoffsetMinute hsign hraw
  obtain ⟨row, hbuilt⟩ := buildRow_ok order lineItem _ _ hraw ⟨_, hvalue⟩
  refine ⟨row, hbuilt, ?_⟩
  have hcell := buildRow_cell order lineItem row hbuilt ("Created at", "created_at") (by decide)
  have hbranch : columnValue order lineItem ("Created at", "created_at")
      = createdAtValue order := rfl
  rw [hbranch, hvalue] at hcell
  exact (Except.ok.inj hcell).symm

/-- The example of C6: `2025-03-27T11:51:11-04:00` gives `27-03-2025 11:51`. -/
theorem created_at_column_witness :
    member sampleOrder "created_at" = .ok (.str "2025-03-27T11:51:11-04:00") ∧
      ∃ row, buildRow sampleOrder sampleItem = .ok row ∧
        cell row "Created at" = .str "27-03-2025 11:51" :=
  ⟨rfl, created_at_column sampleOrder sampleItem "2025" "03" "27" "11" "51" "11" "-" "04" "00"
    (by decide) (by decide) (by decide) (by decide) (by decide) (by decide) (by decide)
    (by decide) (Or.inr rfl) rfl⟩

/-! ## The street columns -/

/-- C7: in the row built for any order, `Billing Street` is
`r(billing_address.address1)`, one space, `r(billing_address.address2)`,
where `r(x)` is the text of `x` when `x` is truthy and nothing otherwise, and
`Shipping Street` is the same over `shipping_address`; for two address lines
that are strings the cell is the first, a space, the second. -/
theorem street_columns (order lineItem : JsVal) (row : Row)
    (h : buildRow order lineItem = .ok row) :
    cell row "Billing Street"
        = .str (valueText (optGet (getProp order "billing_address") "address1") ++ " "
            ++ valueText (optGet (getProp order "billing_address") "address2")) ∧
      cell row "Shipping Street"
        = .str (valueText (optGet (getProp order "shipping_address") "address1") ++ " "
            ++ valueText (optGet (getProp order "shipping_address") "address2")) ∧
      (∀ line1 line2 : String,
        optGet (getProp order "billing_address") "address1" = .str line1 →
        optGet (getProp order "billing_address") "address2" = .str line2 →
        cell row "Billing Street" = .str (line1 ++ " " ++ line2)) ∧
      (∀ line1 line2 : String,
        optGet (getProp order "shipping_address") "address1" = .str line1 →
        optGet (getProp order "shipping_address") "address2" = .str line2 →
        cell row "Shipping Street" = .str (line1 ++ " " ++ line2)) := by
  have htext : ∀ line : String, valueText (.str line) = line := by
    intro line
    by_cases hline : line = ""
    · subst hline
      rfl
    · simp [valueText, truthy, toJsString, hline]
  obtain ⟨hbilling, hshipping⟩ := street_cells order lineItem row h
  refine ⟨hbilling, hshipping, ?_, ?_⟩
  · intro line1 line2 h1 h2
    rw [hbilling, h1, h2, htext, htext]
  · intro line1 line2 h1 h2
    rw [hshipping, h1, h2, htext, htext]

/-- The example of C7: `address1 = "12 Elm St"` with `address2 = ""` gives
`"12 Elm St "`, trailing space included; and two address lines that are the
numbers `1e21` and `12.5` give their texts around the space. -/
theorem street_columns_witness :
    buildRow sampleOrder sampleItem = .ok sampleRow ∧
      optGet (getProp sampleOrder "billing_address") "address1" = .str "12 Elm St" ∧
      optGet (getProp sampleOrder "billing_address") "address2" = .str "" ∧
      cell sampleRow "Billing Street" = .str "12 Elm St " ∧
      buildRow orderWithNumericAddress sampleItem = .ok rowWithNumericAddress ∧
      cell rowWithNumericAddress "Billing Street" = .str "1e+21 12.5" :=
  ⟨rfl, rfl, rfl,
    (street_columns sampleOrder sampleItem sampleRow rfl).2.2.1 "12 Elm St" "" rfl rfl,
    rfl,
    (street_columns orderWithNumericAddress sampleItem rowWithNumericAddress rfl).1⟩

/-! ## Order-level columns -/

/-- C8: two rows built from the same order for two line items agree on every
column whose rule does not start with `line_items.`; they can differ only in
the nine line-item columns, which are exactly the columns whose rule starts
with that prefix. -/
theorem order_level_columns (order lineItem1 lineItem2 : JsVal) (row1 row2 : Row)
    (h1 : buildRow order lineItem1 = .ok row1) (h2 : buildRow order lineItem2 = .ok row2) :
    (∀ e ∈ fieldMappings, jsStartsWith e.2 "line_items." = false →
        cell row1 e.1 = cell row2 e.1) ∧
      (∀ column, cell row1 column ≠ cell row2 column → column ∈ lineItemColumns) ∧
      (fieldMappings.filter fun e => jsStartsWith e.2 "line_items.").map Prod.fst
        = lineItemColumns := by
  have hsame : ∀ e ∈ fieldMappings, jsStartsWith e.2 "line_items." = false →
      cell row1 e.1 = cell row2 e.1 := by
    intro e he hstart
    have hc1 := buildRow_cell order lineItem1 row1 h1 e he
    have hc2 := buildRow_cell order lineItem2 row2 h2 e he
    rw [columnValue_order_only order lineItem1 lineItem2 e hstart, hc2] at hc1
    exact (Except.ok.inj hc1).symm
  refine ⟨hsame, ?_, by decide⟩
  intro column hdiff
  by_contra hnot
  apply hdiff
  by_cases hkey : column ∈ fieldMappings.map Prod.fst
  · obtain ⟨e, he, rfl⟩ := List.mem_map.1 hkey
    have htable : ∀ e ∈ fieldMappings, jsStartsWith e.2 "line_items." = true →
        e.1 ∈ lineItemColumns := by decide
    apply hsame e he
    cases hstart : jsStartsWith e.2 "line_items."
    · rfl
    · exact absurd (htable e he hstart) hnot
  · have hk1 : column ∉ row1.map Prod.fst := by
      rw [buildRow_keys order lineItem1 row1 h1]
      exact hkey
    have hk2 : column ∉ row2.map Prod.fst := by
      rw [buildRow_keys order lineItem2 row2 h2]
      exact hkey
    show objGet row1 column = objGet row2 column
    rw [objGet_absent row1 column hk1, objGet_absent row2 column hk2]

/-- A run of C8 on the two rows of the sample order. -/
theorem order_level_columns_witness :
    buildRow sampleOrder sampleItem = .ok sampleRow ∧
      buildRow sampleOrder sampleItem2 = .ok sampleRow2 ∧
      (∀ e ∈ fieldMappings, jsStartsWith e.2 "line_items." = false →
        cell sampleRow e.1 = cell sampleRow2 e.1) ∧
      (∀ column, cell sampleRow column ≠ cell sampleRow2 column → column ∈ lineItemColumns) ∧
      (fieldMappings.filter fun e => jsStartsWith e.2 "line_items.").map Prod.fst
        = lineItemColumns :=
  ⟨rfl, rfl, order_level_columns sampleOrder sampleItem sampleItem2 sampleRow sampleRow2 rfl rfl⟩

/-! ## The country columns -/

/-- C9, as stated, fails: a billing address whose `country_code` is present
but falsy (here the number `0`) gives a `Billing Country` cell that is the
empty string, not the `country_code`. -/
theorem billing_country_not_always_the_code :
    optGet (getProp orderWithZeroCountryCode "billing_address") "country_code" = .num (.ofNat 0) ∧
      flattenOrders [orderWithZeroCountryCode] = .ok [rowWithZeroCountryCode] ∧
      cell rowWithZeroCountryCode "Billing Country" = .str "" ∧
      cell rowWithZeroCountryCode "Billing Country"
        ≠ optGet (getProp orderWithZeroCountryCode "billing_address") "country_code" :=
  ⟨rfl, rfl, rfl, fun h => by
    have h2 : JsVal.str "" = JsVal.num (.ofNat 0) := h
    cases h2⟩

/-- C9, amended: in the row built for any order, `Billing Country` is
`billing_address.country_code` when that value is truthy and the empty string
when the address or its `country_code` is absent, null or otherwise falsy,
and likewise `Shipping Country` over `shipping_address`; the cells are a
function of the `country_code` alone, so the `country` field has no
influence: two orders with the same `country_code` get the same cell. -/
theorem country_columns (order lineItem : JsVal) (row : Row)
    (h : buildRow order lineItem = .ok row) :
    (∀ address ∈ [("Billing Country", "billing_address"), ("Shipping Country", "shipping_address")],
      (truthy (optGet (getProp order address.2) "country_code") = true →
        cell row address.1 = optGet (getProp order address.2) "country_code") ∧
      (truthy (optGet (getProp order address.2) "country_code") = false →
        cell row address.1 = .str "") ∧
      (nullish (getProp order address.2) = true ∨
          nullish (optGet (getProp order address.2) "country_code") = true →
        cell row address.1 = .str "") ∧
      (∀ (order2 lineItem2 : JsVal) (row2 : Row), buildRow order2 lineItem2 = .ok row2 →
        optGet (getProp order2 address.2) "country_code"
          = optGet (getProp order address.2) "country_code" →
        cell row2 address.1 = cell row address.1)) := by
  have hcells : ∀ (o l : JsVal) (r : Row), buildRow o l = .ok r →
      ∀ address ∈ [("Billing Country", "billing_address"),
        ("Shipping Country", "shipping_address")],
      cell r address.1 = orEmpty (optGet (getProp o address.2) "country_code") := by
    intro o l r hr address haddress
    simp only [List.mem_cons, List.mem_singleton, List.not_mem_nil, or_false] at haddress
    rcases haddress with rfl | rfl
    · exact (country_cells o l r hr).1
    · exact (country_cells o l r hr).2
  intro address haddress
  have hcell := hcells order lineItem row h address haddress
  refine ⟨?_, ?_, ?_, ?_⟩
  · intro htruthy
    rw [hcell, orEmpty_truthy _ htruthy]
  · intro hfalsy
    rw [hcell, orEmpty_falsy _ hfalsy]
  · intro hmissing
    rw [hcell]
    apply orEmpty_nullish
    rcases hmissing with haddr | hcode
    · rw [optGet_nullish _ _ haddr]
      rfl
    · exact hcode
  · intro order2 lineItem2 row2 h2 hsame
    rw [hcells order2 lineItem2 row2 h2 address haddress, hcell, hsame]

/-- A run of C9 (amended) on the sample order, whose billing address has the
country `Canada` and the code `CA`, and on the same order with the country
renamed. -/
theorem country_columns_witness :
    buildRow sampleOrder sampleItem = .ok sampleRow ∧
      buildRow sampleOrderRenamedCountry sampleItem = .ok sampleRowRenamedCountry ∧
      cell sampleRow "Billing Country" = .str "CA" ∧
      cell sampleRowRenamedCountry "Billing Country" = cell sampleRow "Billing Country" ∧
      cell sampleRow "Shipping Country" = .str "" :=
  ⟨rfl, rfl,
    ((country_columns sampleOrder sampleItem sampleRow rfl) _ (List.mem_cons_self _ _)).1 rfl,
    ((country_columns sampleOrder sampleItem sampleRow rfl) _ (List.mem_cons_self _ _)).2.2.2
      sampleOrderRenamedCountry sampleItem sampleRowRenamedCountry rfl rfl,
    ((country_columns sampleOrder sampleItem sampleRow rfl) ("Shipping Country", "shipping_address")
      (by decide)).2.2.1 (Or.inl rfl)⟩

/-! ## The line-item columns -/

/-- C10, as stated, fails: for a line item whose `taxable` is `false` the
traversal of `taxable` from the line item finds `false`, but the
`Lineitem taxable` cell is the empty string. -/
theorem lineitem_taxable_false_is_empty :
    ("Lineitem taxable", "line_items." ++ "taxable") ∈ fieldMappings ∧
      buildRow sampleOrder sampleItem = .ok sampleRow ∧
      reducePath (jsSplit "taxable" '.') sampleItem = .bool false ∧
      cell sampleRow "Lineitem taxable" = .str "" ∧
      cell sampleRow "Lineitem taxable" ≠ reducePath (jsSplit "taxable" '.') sampleItem :=
  ⟨by decide, rfl, rfl, rfl, fun h => by
    have h2 : JsVal.str "" = JsVal.bool false := h
    cases h2⟩

/-- C10, amended: for every rule `line_items.<p>` of the table, the cell in
the row built for line item L is the value found by traversing `<p>` from L
itself when that value is truthy, and the empty string when a segment is
missing or null or the value is otherwise falsy; the order plays no part:
the same line item under another order gives the same cell. -/
theorem line_item_columns (order lineItem : JsVal) (row : Row)
    (h : buildRow order lineItem = .ok row) (column path : String)
    (hrule : (column, "line_items." ++ path) ∈ fieldMappings) :
    (truthy (reducePath (jsSplit path '.') lineItem) = true →
        cell row column = reducePath (jsSplit path '.') lineItem) ∧
      (truthy (reducePath (jsSplit path '.') lineItem) = false → cell row column = .str "") ∧
      (∀ ks1 ks2, jsSplit path '.' = ks1 ++ ks2 → nullish (reducePath ks1 lineItem) = true →
        cell row column = .str "") ∧
      (∀ (order2 : JsVal) (row2 : Row), buildRow order2 lineItem = .ok row2 →
        cell row2 column = cell row column) := by
  have hcell := line_item_cell order lineItem row h column path hrule
  refine ⟨?_, ?_, ?_, ?_⟩
  · intro htruthy
    rw [hcell, orEmpty_truthy _ htruthy]
  · intro hfalsy
    rw [hcell, orEmpty_falsy _ hfalsy]
  · intro ks1 ks2 hkeys hmissing
    rw [hcell]
    exact orEmpty_reducePath_missing _ ks1 ks2 _ hkeys hmissing
  · intro order2 row2 h2
    rw [line_item_cell order2 lineItem row2 h2 column path hrule, hcell]

/-- A run of C10 (amended) on the sample order: `Lineitem sku` of the first
line item is its `sku`, also under the order with the renamed country. -/
theorem line_item_columns_witness :
    buildRow sampleOrder sampleItem = .ok sampleRow ∧
      buildRow sampleOrderRenamedCountry sampleItem = .ok sampleRowRenamedCountry ∧
      cell sampleRow "Lineitem sku" = .str "FA-1" ∧
      cell sampleRowRenamedCountry "Lineitem sku" = cell sampleRow "Lineitem sku" :=
  ⟨rfl, rfl,
    (line_item_columns sampleOrder sampleItem sampleRow rfl "Lineitem sku" "sku"
      (by decide)).1 rfl,
    (line_item_columns sampleOrder sampleItem sampleRow rfl "Lineitem sku" "sku"
      (by decide)).2.2.2 sampleOrderRenamedCountry sampleRowRenamedCountry rfl⟩

/-! ## Numeric path segments -/

/-- C11: numeric segments index into arrays. In the row built for any order,
`Refunded Amount` is the amount of the first transaction of the first refund
when `refunds` is a non-empty array whose first element has a non-empty
`transactions` array with a truthy amount; it is the empty string when
`refunds` is absent or empty, or the first refund has no transactions. -/
theorem refunded_amount_column (order lineItem : JsVal) (row : Row)
    (h : buildRow order lineItem = .ok row) :
    (∀ (refund transaction amount : JsVal) (refunds transactions : List JsVal),
        getProp order "refunds" = .arr (refund :: refunds) →
        optGet refund "transactions" = .arr (transaction :: transactions) →
        optGet transaction "amount" = amount → truthy amount = true →
        cell row "Refunded Amount" = amount) ∧
      (getProp order "refunds" = .undefined ∨ getProp order "refunds" = .arr [] →
        cell row "Refunded Amount" = .str "") ∧
      (∀ (refund : JsVal) (refunds : List JsVal),
        getProp order "refunds" = .arr (refund :: refunds) →
        optGet refund "transactions" = .undefined ∨ optGet refund "transactions" = .arr [] →
        cell row "Refunded Amount" = .str "") := by
  have hcell : cell row "Refunded Amount"
      = orEmpty (optGet (optGet (optGet (optGet (getProp order "refunds") "0") "transactions")
          "0") "amount") := by
    rw [← optGet_eq_getProp order "refunds"]
    exact single_cell order lineItem row h ("Refunded Amount", "refunds.0.transactions.0.amount")
      (by decide) (by decide) rfl rfl
  refine ⟨?_, ?_, ?_⟩
  · intro refund transaction amount refunds transactions hrefunds htransactions hamount htruthy
    rw [hcell, hrefunds]
    show orEmpty (optGet (optGet (optGet refund "transactions") "0") "amount") = amount
    rw [htransactions]
    show orEmpty (optGet transaction "amount") = amount
    rw [hamount, orEmpty_truthy _ htruthy]
  · rintro (habsent | hempty)
    · rw [hcell, habsent]
      rfl
    · rw [hcell, hempty]
      rfl
  · intro refund refunds hrefunds hnone
    rw [hcell, hrefunds]
    show orEmpty (optGet (optGet (optGet refund "transactions") "0") "amount") = .str ""
    rcases hnone with habsent | hempty
    · rw [habsent]
      rfl
    · rw [hempty]
      rfl

/-- A run of C11 on the order with one refund of `12.50`, and on the sample
order, which has no refunds. -/
theorem refunded_amount_column_witness :
    buildRow orderWithRefund sampleItem = .ok rowWithRefund ∧
      cell rowWithRefund "Refunded Amount" = .str "12.50" ∧
      buildRow sampleOrder sampleItem = .ok sampleRow ∧
      cell sampleRow "Refunded Amount" = .str "" :=
  ⟨rfl,
    (refunded_amount_column orderWithRefund sampleItem rowWithRefund rfl).1
      _ _ _ _ _ rfl rfl rfl rfl,
    rfl,
    (refunded_amount_column sampleOrder sampleItem sampleRow rfl).2.1 (Or.inl rfl)⟩

/-! ## Falsy values -/

/-- C12: in the row built for any order and line item, a one-path column
(plain or line-item rule) whose traversal finds a falsy value, `0`, `""` or
`false` as much as a missing one, holds the empty string, and a falsy half of
a street column contributes nothing; so `subtotal_price = 0` gives
`Subtotal = ""` and `taxable = false` gives `Lineitem taxable = ""`. -/
theorem falsy_values_are_empty (order lineItem : JsVal) (row : Row)
    (h : buildRow order lineItem = .ok row) :
    (∀ e ∈ fieldMappings, e.2 ≠ "" → isSpecial e.1 = false → jsIncludes e.2 ' ' = false →
        ∀ v ∈ [JsVal.num (.ofNat 0), JsVal.str "", JsVal.bool false, JsVal.undefined],
          reducePath (ruleKeys e.2) (ruleRoot order lineItem e.2) = v →
          cell row e.1 = .str "") ∧
      (∀ v ∈ [JsVal.num (.ofNat 0), JsVal.str "", JsVal.bool false, JsVal.undefined],
        (optGet (getProp order "billing_address") "address1" = v →
          cell row "Billing Street"
            = .str ("" ++ " " ++ valueText (optGet (getProp order "billing_address") "address2"))) ∧
        (optGet (getProp order "billing_address") "address2" = v →
          cell row "Billing Street"
            = .str (valueText (optGet (getProp order "billing_address") "address1") ++ " " ++ "")) ∧
        (optGet (getProp order "shipping_address") "address1" = v →
          cell row "Shipping Street"
            = .str ("" ++ " " ++ valueText (optGet (getProp order "shipping_address") "address2"))) ∧
        (optGet (getProp order "shipping_address") "address2" = v →
          cell row "Shipping Street"
            = .str (valueText (optGet (getProp order "shipping_address") "address1") ++ " " ++ ""))) ∧
      (getProp order "subtotal_price" = .num (.ofNat 0) → cell row "Subtotal" = .str "") ∧
      (getProp lineItem "taxable" = .bool false → cell row "Lineitem taxable" = .str "") := by
  have hfalsy : ∀ v ∈ [JsVal.num (.ofNat 0), JsVal.str "", JsVal.bool false, JsVal.undefined],
      truthy v = false ∧ valueText v = "" := by
    intro v hv
    simp only [List.mem_cons, List.mem_singleton, List.not_mem_nil, or_false] at hv
    rcases hv with rfl | rfl | rfl | rfl <;> exact ⟨rfl, rfl⟩
  obtain ⟨hbilling, hshipping⟩ := street_cells order lineItem row h
  refine ⟨?_, ?_, ?_, ?_⟩
  · intro e he hrule hspecial hspace v hv hfound
    rw [single_cell order lineItem row h e he hrule hspecial hspace, hfound,
      orEmpty_falsy _ (hfalsy v hv).1]
  · intro v hv
    refine ⟨?_, ?_, ?_, ?_⟩
    · intro hfound
      rw [hbilling, hfound, (hfalsy v hv).2]
    · intro hfound
      rw [hbilling, hfound, (hfalsy v hv).2]
    · intro hfound
      rw [hshipping, hfound, (hfalsy v hv).2]
    · intro hfound
      rw [hshipping, hfound, (hfalsy v hv).2]
  · intro hzero
    have hcell := single_cell order lineItem row h ("Subtotal", "subtotal_price")
      (by decide) (by decide) rfl rfl
    have hpath : reducePath (ruleKeys "subtotal_price")
        (ruleRoot order lineItem "subtotal_price") = optGet order "subtotal_price" := rfl
    rw [hcell, hpath, optGet_eq_getProp, hzero]
    rfl
  · intro hfalse
    have hcell := single_cell order lineItem row h ("Lineitem taxable", "line_items.taxable")
      (by decide) (by decide) rfl rfl
    have hpath : reducePath (ruleKeys "line_items.taxable")
        (ruleRoot order lineItem "line_items.taxable") = optGet lineItem "taxable" := rfl
    rw [hcell, hpath, optGet_eq_getProp, hfalse]
    rfl

/-- A run of C12 on the order with a subtotal of `0` and a line item whose
`taxable` is `false`. -/
theorem falsy_values_are_empty_witness :
    buildRow orderWithRefund sampleItem = .ok rowWithRefund ∧
      getProp orderWithRefund "subtotal_price" = .num (.ofNat 0) ∧
      cell rowWithRefund "Subtotal" = .str "" ∧
      getProp sampleItem "taxable" = .bool false ∧
      cell rowWithRefund "Lineitem taxable" = .str "" :=
  ⟨rfl, rfl, (falsy_values_are_empty orderWithRefund sampleItem rowWithRefund rfl).2.2.1 rfl,
    rfl, (falsy_values_are_empty orderWithRefund sampleItem rowWithRefund rfl).2.2.2 rfl⟩

/-! ## Orders without line items -/

/-- C13, as stated, fails: an order with no `line_items` field makes
`flattenOrders` raise a `TypeError`, alone or after an order whose rows could
be built, so the rows of the other order are not produced either. -/
theorem absent_line_items_fails :
    getProp orderWithoutItemsField "line_items" = .undefined ∧
      flattenOrders [orderWithoutItemsField] = .error .typeError ∧
      flattenOrders [sampleOrder] = .ok sampleRows ∧
      flattenOrders [sampleOrder, orderWithoutItemsField] = .error .typeError :=
  ⟨rfl, rfl, rfl, rfl⟩

/-- C13, amended: an order whose `line_items` is the empty array contributes
no row and no failure: the result for an input with that order in it is the
result for the input without it, and alone it gives the empty result. -/
theorem empty_line_items_no_rows (before after : List JsVal) (order : JsVal)
    (hempty : member order "line_items" = .ok (.arr [])) :
    flattenOrders (before ++ order :: after) = flattenOrders (before ++ after) ∧
      flattenOrders [order] = .ok [] := by
  have hpush : ∀ rows, pushRows order rows = .ok rows := by
    intro rows
    simp [pushRows, hempty, bind, Except.bind, iterate, pure, Except.pure]
  constructor
  · unfold flattenOrders
    rw [List.foldlM_append, List.foldlM_append]
    congr 1
    funext rows
    rw [List.foldlM_cons, hpush]
    rfl
  · unfold flattenOrders
    rw [List.foldlM_cons, hpush]
    rfl

/-- A run of C13 (amended): the order with an empty `line_items` between two
copies of the sample order leaves their four rows. -/
theorem empty_line_items_no_rows_witness :
    member orderWithoutItems "line_items" = .ok (.arr []) ∧
      flattenOrders ([sampleOrder] ++ [sampleOrder]) = .ok (sampleRows ++ sampleRows) ∧
      flattenOrders ([sampleOrder] ++ orderWithoutItems :: [sampleOrder])
        = flattenOrders ([sampleOrder] ++ [sampleOrder]) ∧
      flattenOrders [orderWithoutItems] = .ok [] :=
  ⟨rfl, rfl, empty_line_items_no_rows [sampleOrder] [sampleOrder] orderWithoutItems rfl⟩

/-! ## Are the cells strings? -/

/-- C14, as stated, fails: cells can be numbers and arrays. For the sample
order `Order ID` is the number `5001` and `Lineitem quantity` the number `2`,
and for the order with a discount code `Discount Code` is the array itself. -/
theorem cells_not_always_strings :
    flattenOrders [sampleOrder] = .ok sampleRows ∧
      buildRow sampleOrder sampleItem = .ok sampleRow ∧
      sampleRow ∈ sampleRows ∧
      cell sampleRow "Order ID" = .num (.ofNat 5001) ∧
      isString (cell sampleRow "Order ID") = false ∧
      cell sampleRow "Lineitem quantity" = .num (.ofNat 2) ∧
      buildRow orderWithRefund sampleItem = .ok rowWithRefund ∧
      cell rowWithRefund "Discount Code" = .arr [.obj [("code", .str "SAVE10")]] ∧
      isString (cell rowWithRefund "Discount Code") = false :=
  ⟨rfl, rfl, List.mem_cons_self _ _, rfl, rfl, rfl, rfl, rfl, rfl⟩

/-- C14, amended: in the row built for any order and line item, the cells of
the columns with an empty rule, of `Accepts Marketing`, of `Created at` and
of the two street columns are strings; the cell of a one-path column, and of
a country column, is the value found by its traversal when that value is
truthy, whatever its kind, and the empty string otherwise, so it is a string
exactly when the value found is a string or falsy. -/
theorem cell_kinds (order lineItem : JsVal) (row : Row)
    (h : buildRow order lineItem = .ok row) :
    (∀ e ∈ fieldMappings,
        e.2 = "" ∨ e.1 = "Accepts Marketing" ∨ e.1 = "Created at" ∨ jsIncludes e.2 ' ' = true →
        isString (cell row e.1) = true) ∧
      (∀ e ∈ fieldMappings, e.2 ≠ "" → isSpecial e.1 = false → jsIncludes e.2 ' ' = false →
        (truthy (reducePath (ruleKeys e.2) (ruleRoot order lineItem e.2)) = true →
          cell row e.1 = reducePath (ruleKeys e.2) (ruleRoot order lineItem e.2)) ∧
        (isString (cell row e.1) = true ↔
          isString (reducePath (ruleKeys e.2) (ruleRoot order lineItem e.2)) = true ∨
            truthy (reducePath (ruleKeys e.2) (ruleRoot order lineItem e.2)) = false)) ∧
      (∀ address ∈ [("Billing Country", "billing_address"),
          ("Shipping Country", "shipping_address")],
        (truthy (optGet (getProp order address.2) "country_code") = true →
          cell row address.1 = optGet (getProp order address.2) "country_code") ∧
        (isString (cell row address.1) = true ↔
          isString (optGet (getProp order address.2) "country_code") = true ∨
            truthy (optGet (getProp order address.2) "country_code") = false)) := by
  have hkind : ∀ v : JsVal,
      (truthy v = true → orEmpty v = v) ∧
        (isString (orEmpty v) = true ↔ isString v = true ∨ truthy v = false) := by
    intro v
    refine ⟨orEmpty_truthy v, ?_⟩
    cases ht : truthy v
    · simp [orEmpty_falsy v ht, isString]
    · simp [orEmpty_truthy v ht]
  refine ⟨?_, ?_, ?_⟩
  · intro e he hcase
    have hcell := buildRow_cell order lineItem row h e he
    rcases hcase with hempty | hmarketing | hcreated | hspace
    · simp only [columnValue, hempty, if_true, pure, Except.pure] at hcell
      rw [← Except.ok.inj hcell]
      rfl
    · rw [hmarketing, accepts_marketing_cell order lineItem row h]
      rfl
    · have htable : ∀ e ∈ fieldMappings, e.1 = "Created at" → e.2 = "created_at" := by decide
      have hvalue : columnValue order lineItem e = createdAtValue order := by
        simp [columnValue, cellValue, htable e he hcreated, hcreated]
      rw [hvalue] at hcell
      exact createdAtValue_isString order _ hcell
    · have htable : ∀ e ∈ fieldMappings, jsIncludes e.2 ' ' = true →
          e.1 = "Billing Street" ∨ e.1 = "Shipping Street" := by decide
      rcases htable e he hspace with hb | hs
      · rw [hb, (street_cells order lineItem row h).1]
        rfl
      · rw [hs, (street_cells order lineItem row h).2]
        rfl
  · intro e he hrule hspecial hspace
    rw [single_cell order lineItem row h e he hrule hspecial hspace]
    exact hkind _
  · intro address haddress
    simp only [List.mem_cons, List.mem_singleton, List.not_mem_nil, or_false] at haddress
    rcases haddress with rfl | rfl
    · rw [(country_cells order lineItem row h).1]
      exact hkind _
    · rw [(country_cells order lineItem row h).2]
      exact hkind _

/-- A run of C14 (amended) on the sample order: `Name` is the string found,
`Order ID` the number found, `Billing Street` a string. -/
theorem cell_kinds_witness :
    buildRow sampleOrder sampleItem = .ok sampleRow ∧
      isString (cell sampleRow "Billing Street") = true ∧
      cell sampleRow "Order ID" = .num (.ofNat 5001) ∧
      cell sampleRow "Billing Country" = .str "CA" :=
  ⟨rfl,
    (cell_kinds sampleOrder sampleItem sampleRow rfl).1
      ("Billing Street", "billing_address.address1 billing_address.address2") (by decide)
      (Or.inr (Or.inr (Or.inr rfl))),
    ((cell_kinds sampleOrder sampleItem sampleRow rfl).2.1 ("Order ID", "id") (by decide)
      (by decide) rfl rfl).1 rfl,
    ((cell_kinds sampleOrder sampleItem sampleRow rfl).2.2 ("Billing Country", "billing_address")
      (List.mem_cons_self _ _)).1 rfl⟩

/-! ## No null and no undefined -/

/-- C15: no cell of a row that `flattenOrders` returns is `null` or
`undefined`: every entry of every row, and so the cell under every column of
the table, holds a defined, non-null value; and the row was built for an
order and a line item for which every one-path column whose traversal found a
missing, null or otherwise falsy value holds the empty string. -/
theorem cells_defined (orders : List JsVal) (out : List Row)
    (h : flattenOrders orders = .ok out) :
    ∀ row ∈ out,
      (∀ kv ∈ row, kv.2 ≠ .undefined ∧ kv.2 ≠ .null) ∧
      (∀ e ∈ fieldMappings, cell row e.1 ≠ .undefined ∧ cell row e.1 ≠ .null) ∧
      (∃ order ∈ orders, ∃ lineItem, buildRow order lineItem = .ok row ∧
        ∀ e ∈ fieldMappings, e.2 ≠ "" → isSpecial e.1 = false → jsIncludes e.2 ' ' = false →
          truthy (reducePath (ruleKeys e.2) (ruleRoot order lineItem e.2)) = false →
          cell row e.1 = .str "") := by
  intro row hrow
  obtain ⟨order, horder, items, _, lineItem, _, hbuilt⟩ :=
    flattenOrders_row_origin orders out h row hrow
  have hsplit : ∀ v : JsVal, nullish v = false → v ≠ .undefined ∧ v ≠ .null := by
    intro v hv
    constructor <;> intro heq <;> rw [heq] at hv <;> cases hv
  refine ⟨?_, ?_, order, horder, lineItem, hbuilt, ?_⟩
  · intro kv hkv
    exact hsplit _ (buildRow_defined_cells order lineItem row hbuilt kv hkv)
  · intro e he
    exact hsplit _ (columnValue_defined order lineItem e _
      (buildRow_cell order lineItem row hbuilt e he))
  · intro e he hrule hspecial hspace hfalsy
    rw [single_cell order lineItem row hbuilt e he hrule hspecial hspace, orEmpty_falsy _ hfalsy]

/-- A run of C15 on the sample order, which returns two rows. -/
theorem cells_defined_witness :
    flattenOrders [sampleOrder] = .ok sampleRows ∧ sampleRows.length = 2 ∧
      ∀ row ∈ sampleRows,
        (∀ kv ∈ row, kv.2 ≠ .undefined ∧ kv.2 ≠ .null) ∧
        (∀ e ∈ fieldMappings, cell row e.1 ≠ .undefined ∧ cell row e.1 ≠ .null) ∧
        (∃ order ∈ [sampleOrder], ∃ lineItem, buildRow order lineItem = .ok row ∧
          ∀ e ∈ fieldMappings, e.2 ≠ "" → isSpecial e.1 = false → jsIncludes e.2 ' ' = false →
            truthy (reducePath (ruleKeys e.2) (ruleRoot order lineItem e.2)) = false →
            cell row e.1 = .str "") :=
  ⟨rfl, rfl, cells_defined [sampleOrder] sampleRows rfl⟩

/-! ## Rules that name a key of an array -/

/-- C20: in the row built for any order, `Fulfilled at` is the empty string
whenever `fulfillments` is an array and `Shipping Method` is the empty string
whenever `shipping_lines` is an array, whatever the arrays hold: the rules
look up `created_at` and `title` on the array itself. -/
theorem array_keyed_columns (order lineItem : JsVal) (row : Row)
    (h : buildRow order lineItem = .ok row) :
    (∀ fulfillments : List JsVal, getProp order "fulfillments" = .arr fulfillments →
        cell row "Fulfilled at" = .str "") ∧
      (∀ shippingLines : List JsVal, getProp order "shipping_lines" = .arr shippingLines →
        cell row "Shipping Method" = .str "") := by
  constructor
  · intro fulfillments hfulfillments
    have hcell := single_cell order lineItem row h ("Fulfilled at", "fulfillments.created_at")
      (by decide) (by decide) rfl rfl
    have hpath : reducePath (ruleKeys "fulfillments.created_at")
        (ruleRoot order lineItem "fulfillments.created_at")
        = optGet (optGet order "fulfillments") "created_at" := rfl
    rw [hcell, hpath, optGet_eq_getProp order, hfulfillments]
    rfl
  · intro shippingLines hshipping
    have hcell := single_cell order lineItem row h ("Shipping Method", "shipping_lines.title")
      (by decide) (by decide) rfl rfl
    have hpath : reducePath (ruleKeys "shipping_lines.title")
        (ruleRoot order lineItem "shipping_lines.title")
        = optGet (optGet order "shipping_lines") "title" := rfl
    rw [hcell, hpath, optGet_eq_getProp order, hshipping]
    rfl

/-- A run of C20 on the order with one fulfillment and one shipping line,
each carrying the key its rule names. -/
theorem array_keyed_columns_witness :
    buildRow orderWithRefund sampleItem = .ok rowWithRefund ∧
      getProp orderWithRefund "fulfillments"
        = .arr [.obj [("created_at", .str "2025-03-28T09:00:00-04:00")]] ∧
      cell rowWithRefund "Fulfilled at" = .str "" ∧
      getProp orderWithRefund "shipping_lines" = .arr [.obj [("title", .str "Standard")]] ∧
      cell rowWithRefund "Shipping Method" = .str "" :=
  ⟨rfl, rfl, (array_keyed_columns orderWithRefund sampleItem rowWithRefund rfl).1 _ rfl,
    rfl, (array_keyed_columns orderWithRefund sampleItem rowWithRefund rfl).2 _ rfl⟩

/-! ## Rules with several paths -/

/-- A rule outside the table: `fieldMappings` holds no rule with a line-item
sub-path, and a rule with one would have all its sub-paths read from one
root picked by how the whole rule starts, no prefix stripped. -/
theorem multi_path_shares_one_root :
    getProp sampleItem "name" = .str "Alarm" ∧
      getProp sampleItem "sku" = .str "FA-1" ∧
      cellValue sampleOrder sampleItem "Billing Name And Item"
          "billing_address.name line_items.name" = .ok (.str "Ada Lovelace ") ∧
      cellValue sampleOrder sampleItem "Billing Name And Item"
          "billing_address.name line_items.name" ≠ .ok (.str "Ada Lovelace Alarm") ∧
      cellValue sampleOrder sampleItem "Item Name And Sku"
          "line_items.name line_items.sku" = .ok (.str " ") :=
  ⟨rfl, rfl, rfl, fun h => by
    have h2 : (Except.ok (JsVal.str "Ada Lovelace ") : Except JsError JsVal)
        = .ok (.str "Ada Lovelace Alarm") := h
    exact absurd (JsVal.str.inj (Except.ok.inj h2)) (by decide), rfl⟩

/-- C17: for every rule that the program evaluates in the branch for rules
with a space, that is every rule of `fieldMappings` with a space in it, each
sub-path is resolved against its own root, a sub-path that starts with
`line_items.` against the line item with the prefix stripped and any other
against the order, each made the empty string when falsy, and the results are
joined by single spaces. The same holds for any column that is not singled
out by name and any rule with a space whose sub-paths are all order paths,
as those of the table are. -/
theorem multi_path_own_roots (order lineItem : JsVal) (row : Row)
    (h : buildRow order lineItem = .ok row) :
    (∀ e ∈ fieldMappings, jsIncludes e.2 ' ' = true →
        cell row e.1 = .str (joinWith " " ((jsSplit e.2 ' ').map fun path =>
          elemString (orEmpty (subPathValue order lineItem path))))) ∧
      (∀ e ∈ fieldMappings, jsIncludes e.2 ' ' = true →
        ∀ path ∈ jsSplit e.2 ' ', jsStartsWith path "line_items." = false) ∧
      (∀ csvField rule : String, isSpecial csvField = false → jsIncludes rule ' ' = true →
        (∀ path ∈ jsSplit rule ' ', jsStartsWith path "line_items." = false) →
        cellValue order lineItem csvField rule
          = .ok (.str (joinWith " " ((jsSplit rule ' ').map fun path =>
              elemString (orEmpty (subPathValue order lineItem path)))))) := by
  have htable : ∀ e ∈ fieldMappings, jsIncludes e.2 ' ' = true →
      e.2 ≠ "" ∧ isSpecial e.1 = false ∧
        ∀ path ∈ jsSplit e.2 ' ', jsStartsWith path "line_items." = false := by decide
  refine ⟨?_, fun e he hspace => (htable e he hspace).2.2, ?_⟩
  · intro e he hspace
    obtain ⟨hrule, hspecial, hpaths⟩ := htable e he hspace
    have hcell := buildRow_cell order lineItem row h e he
    simp only [columnValue, hrule, if_false] at hcell
    rw [cellValue_order_paths order lineItem e.1 e.2 hspecial hspace hpaths] at hcell
    exact (Except.ok.inj hcell).symm
  · intro csvField rule hspecial hspace hpaths
    exact cellValue_order_paths order lineItem csvField rule hspecial hspace hpaths

/-- A run of C17 on the sample order: `Billing Street` is the two billing
address lines, each read from the order, around one space. -/
theorem multi_path_own_roots_witness :
    buildRow sampleOrder sampleItem = .ok sampleRow ∧
      subPathValue sampleOrder sampleItem "billing_address.address1" = .str "12 Elm St" ∧
      subPathValue sampleOrder sampleItem "billing_address.address2" = .str "" ∧
      cell sampleRow "Billing Street"
        = .str (joinWith " "
            ((jsSplit "billing_address.address1 billing_address.address2" ' ').map fun path =>
              elemString (orEmpty (subPathValue sampleOrder sampleItem path)))) ∧
      cell sampleRow "Billing Street" = .str "12 Elm St " :=
  ⟨rfl, rfl, rfl,
    (multi_path_own_roots sampleOrder sampleItem sampleRow rfl).1
      ("Billing Street", "billing_address.address1 billing_address.address2") (by decide) rfl,
    rfl⟩

/-! ## Malformed timestamps -/

/-- C18, as stated, fails: a `created_at` with a `T` but no colon after it,
or with two date fields only, does not make `flattenOrders` fail; the row
comes back with the text `undefined` in its `Created at` cell. -/
theorem malformed_created_at_is_mis_sliced :
    flattenOrders [orderCreatedAt "2025-03-27T1151"] = .ok [rowCreatedAt "2025-03-27T1151"] ∧
      cell (rowCreatedAt "2025-03-27T1151") "Created at" = .str "27-03-2025 1151:undefined" ∧
      flattenOrders [orderCreatedAt "2025-03T11:51"] = .ok [rowCreatedAt "2025-03T11:51"] ∧
      cell (rowCreatedAt "2025-03T11:51") "Created at" = .str "undefined-03-2025 11:51" :=
  ⟨rfl, rfl, rfl, rfl⟩

/-- C18, amended: for an order with at least one line item whose `created_at`
is a string, `flattenOrders` fails when the string has no `T` in it; when it
has one the function does not fail on that order, however malformed the
rest: alone the order gets its rows, each with a text in `Created at`, and a
time part without a colon is sliced into
`<day>-<month>-<year> <time part>:undefined`. -/
theorem malformed_created_at (orders : List JsVal) (order item : JsVal) (items : List JsVal)
    (raw : String)
    (hitems : member order "line_items" = .ok (.arr (item :: items)))
    (hraw : member order "created_at" = .ok (.str raw)) :
    ('T' ∉ raw.data → order ∈ orders → flattenOrders orders = .error .typeError) ∧
      ('T' ∈ raw.data →
        ∃ rows, flattenOrders [order] = .ok rows ∧ rows.length = (item :: items).length ∧
          ∀ row ∈ rows, isString (cell row "Created at") = true) ∧
      (∀ date time : String, raw = date ++ "T" ++ time → 'T' ∉ date.data → 'T' ∉ time.data →
        ':' ∉ time.data →
        ∃ rows, flattenOrders [order] = .ok rows ∧ rows.length = (item :: items).length ∧
          ∀ row ∈ rows, cell row "Created at"
            = .str (toJsString (destructure (jsSplit date '-') 2) ++ "-"
                ++ toJsString (destructure (jsSplit date '-') 1) ++ "-"
                ++ toJsString (destructure (jsSplit date '-') 0) ++ " " ++ time ++ ":"
                ++ "undefined")) := by
  have hbranch : ∀ lineItem, columnValue order lineItem ("Created at", "created_at")
      = createdAtValue order := fun _ => rfl
  have hrows : ∀ v, createdAtValue order = .ok v →
      ∃ rows, flattenOrders [order] = .ok rows ∧ rows.length = (item :: items).length ∧
        ∀ row ∈ rows, cell row "Created at" = v := by
    intro v hv
    obtain ⟨rows, hflat, hbuilt⟩ := flattenOrders_one order (item :: items) hitems ⟨v, hv⟩
    refine ⟨rows, hflat, hbuilt.length_eq.symm, ?_⟩
    intro row hrow
    obtain ⟨lineItem, _, hrowBuilt⟩ := forall₂_mem_right _ _ _ hbuilt row hrow
    have hcell := buildRow_cell order lineItem row hrowBuilt ("Created at", "created_at")
      (by decide)
    rw [hbranch, hv] at hcell
    exact (Except.ok.inj hcell).symm
  refine ⟨?_, ?_, ?_⟩
  · intro hT horder
    apply flattenOrders_error orders order item items horder hitems
    apply buildRow_error order item ("Created at", "created_at") (by decide) .typeError
    rw [hbranch]
    exact createdAtValue_error order raw hraw hT
  · intro hT
    obtain ⟨v, hv⟩ := createdAtValue_ok order raw hraw hT
    obtain ⟨rows, hflat, hlen, hcells⟩ := hrows v hv
    refine ⟨rows, hflat, hlen, ?_⟩
    intro row hrow
    rw [hcells row hrow]
    exact createdAtValue_isString order v hv
  · intro date time hshape hdate htime hcolon
    rw [hshape] at hraw
    exact hrows _ (createdAtValue_no_colon order date time hraw hdate htime hcolon)

/-- A run of C18 (amended): `2025-03-27` without a `T` makes the function
fail, `2025-03-27T1151` gives a row with `27-03-2025 1151:undefined`. -/
theorem malformed_created_at_witness :
    flattenOrders [sampleOrder, orderCreatedAt "2025-03-27"] = .error .typeError ∧
      ∃ rows, flattenOrders [orderCreatedAt "2025-03-27T1151"] = .ok rows ∧ rows.length = 1 ∧
        ∀ row ∈ rows, cell row "Created at" = .str "27-03-2025 1151:undefined" :=
  ⟨(malformed_created_at [sampleOrder, orderCreatedAt "2025-03-27"]
      (orderCreatedAt "2025-03-27") sampleItem [] "2025-03-27" rfl rfl).1
      (by decide) (by simp),
    (malformed_created_at [] (orderCreatedAt "2025-03-27T1151") sampleItem []
      "2025-03-27T1151" rfl rfl).2.2 "2025-03-27" "1151" rfl (by decide) (by decide)
      (by decide)⟩

/-! ## File name and remote path -/

/-- C16, as stated, fails for run dates outside the years 0000 to 9999: the
clock reading of 1 January 10000, which `toISOString` writes
`+010000-01-01T00:00:00.000Z`, gives the file name
`HCM_001_SHOPIFY_ECOMM_+01000001.csv`, whose date part is not eight digits. -/
theorem upload_name_of_year_10000 :
    uploadNames "+010000-01-01T00:00:00.000Z" (some "/upload/in/orders.csv")
        = .ok ("HCM_001_SHOPIFY_ECOMM_+01000001.csv",
            "/upload/in/HCM_001_SHOPIFY_ECOMM_+01000001.csv") ∧
      removeChar (sliceTo "+010000-01-01T00:00:00.000Z" 10) '-' = "+01000001" ∧
      ¬ (∀ c ∈ "+01000001".data, c.isDigit = true) ∧
      ¬ ∃ digits : String, digits.length = 8 ∧ (∀ c ∈ digits.data, c.isDigit = true) ∧
        "HCM_001_SHOPIFY_ECOMM_+01000001.csv" = "HCM_001_SHOPIFY_ECOMM_" ++ digits ++ ".csv" := by
  refine ⟨rfl, rfl, by decide, ?_⟩
  rintro ⟨digits, _, hdigits, hname⟩
  have hdata : "HCM_001_SHOPIFY_ECOMM_".data ++ ("+01000001".data ++ ".csv".data)
      = "HCM_001_SHOPIFY_ECOMM_".data ++ (digits.data ++ ".csv".data) := by
    have := congrArg String.data hname
    simpa [String.data_append, List.append_assoc] using this
  have hdate : "+01000001".data = digits.data :=
    List.append_cancel_right (List.append_cancel_left hdata)
  have hplus : '+' ∈ digits.data := by
    rw [← hdate]
    decide
  have := hdigits '+' hplus
  exact absurd this (by decide)

/-- C16, amended: for a run date in the years 0000 to 9999, whose ISO text
starts with a four-digit year, a two-digit month and a two-digit day,
`YYYY-MM-DD`, the local file name is `HCM_001_SHOPIFY_ECOMM_`, the eight
digits `YYYYMMDD` and `.csv`; the remote path of a base path
`P ++ "orders.csv"` is `P` followed by that file name, and a base path that
does not end in `orders.csv` is left unchanged. -/
theorem upload_names (year month day rest base : String)
    (hyear : year.length = 4) (hmonth : month.length = 2) (hday : day.length = 2)
    (hyearDigits : ∀ c ∈ year.data, c.isDigit = true)
    (hmonthDigits : ∀ c ∈ month.data, c.isDigit = true)
    (hdayDigits : ∀ c ∈ day.data, c.isDigit = true) :
    ∃ remotePath,
      uploadNames (year ++ "-" ++ month ++ "-" ++ day ++ rest) (some base)
        = .ok ("HCM_001_SHOPIFY_ECOMM_" ++ (year ++ month ++ day) ++ ".csv", remotePath) ∧
      (year ++ month ++ day).length = 8 ∧
      (∀ start : String, base = start ++ "orders.csv" →
        remotePath = start ++ ("HCM_001_SHOPIFY_ECOMM_" ++ (year ++ month ++ day) ++ ".csv")) ∧
      ((¬ ∃ start : String, base = start ++ "orders.csv") → remotePath = base) := by
  have htoday := today_digits year month day rest hyear hmonth hday hyearDigits hmonthDigits
    hdayDigits
  have hplain : '$' ∉ ("HCM_001_SHOPIFY_ECOMM_" ++ (year ++ month ++ day) ++ ".csv").data := by
    simp only [String.data_append, List.mem_append, not_or]
    exact ⟨⟨by decide, ⟨not_mem_digits _ hyearDigits '$' rfl,
      not_mem_digits _ hmonthDigits '$' rfl⟩, not_mem_digits _ hdayDigits '$' rfl⟩, by decide⟩
  refine ⟨replaceOrdersCsv base ("HCM_001_SHOPIFY_ECOMM_" ++ (year ++ month ++ day) ++ ".csv"),
    ?_, ?_, ?_, ?_⟩
  · unfold uploadNames
    simp only [htoday]
  · have h1 : year.data.length = 4 := hyear
    have h2 : month.data.length = 2 := hmonth
    have h3 : day.data.length = 2 := hday
    show (year ++ month ++ day).data.length = 8
    simp [String.data_append, h1, h2, h3]
  · intro start hbase
    rw [hbase]
    exact replaceOrdersCsv_end start _ hplain
  · intro hend
    exact replaceOrdersCsv_other base _ hend

/-- A run of C16 for the clock reading `2025-03-27T15:04:05.123Z` and the
base path `/upload/in/orders.csv`. -/
theorem upload_names_witness :
    uploadNames "2025-03-27T15:04:05.123Z" (some "/upload/in/orders.csv")
        = .ok ("HCM_001_SHOPIFY_ECOMM_20250327.csv",
            "/upload/in/HCM_001_SHOPIFY_ECOMM_20250327.csv") ∧
      ∃ remotePath,
        uploadNames ("2025" ++ "-" ++ "03" ++ "-" ++ "27" ++ "T15:04:05.123Z")
            (some "/upload/in/orders.csv")
          = .ok ("HCM_001_SHOPIFY_ECOMM_" ++ ("2025" ++ "03" ++ "27") ++ ".csv", remotePath) ∧
        ("2025" ++ "03" ++ "27").length = 8 ∧
        (∀ start : String, "/upload/in/orders.csv" = start ++ "orders.csv" →
          remotePath
            = start ++ ("HCM_001_SHOPIFY_ECOMM_" ++ ("2025" ++ "03" ++ "27") ++ ".csv")) ∧
        ((¬ ∃ start : String, "/upload/in/orders.csv" = start ++ "orders.csv") →
          remotePath = "/upload/in/orders.csv") :=
  ⟨rfl, upload_names "2025" "03" "27" "T15:04:05.123Z" "/upload/in/orders.csv" rfl rfl rfl
    (by decide) (by decide) (by decide)⟩

/-! ## The paging cursor -/

/-- C19 fails on the code: when the `link` header lists a previous link
before the next link, the cursor is the `page_info` token of the previous
link, the first in the header, and the following request asks for it. With a
next link only the cursor is its token; with no header, or a header without
`rel="next"`, there is no cursor. -/
theorem cursor_is_first_page_info :
    jsIncludesText headerWithPrevious "rel=\"next\"" = true ∧
      nextPageInfo (some headerWithPrevious) = some "PREV1" ∧
      nextPageInfo (some headerWithPrevious) ≠ some "NEXT2" ∧
      requestUrl "https://shop.example/admin/api/2024-01/orders.json?status=any&limit=250"
          (nextPageInfo (some headerWithPrevious))
        = "https://shop.example/admin/api/2024-01/orders.json?status=any&limit=250&page_info=PREV1" ∧
      nextPageInfo (some headerNextOnly) = some "NEXT2" ∧
      nextPageInfo (some headerPreviousOnly) = none ∧
      nextPageInfo none = none := by
  refine ⟨by decide, by decide, by decide, by decide, by decide, by decide, rfl⟩

end FirstAlert
